import Mathlib

/-!
Verification of the WebGPU sorting engines (FidelityFX Parallel Sort,
DeviceRadixSort, OneSweep) of this repository against its specification.

The engines are GPU radix sorts driven by a host orchestrator.  Each pass of
an engine is, in aggregate, a counting scatter: a histogram/scan stage turns
per-digit counts into exclusive global offsets and the scatter kernel writes
every record at

  global base of its digit  +  stable rank among equal digits before it.

The embedding below models each engine's pass at that level, keeping the
source's tiling (partitions of `PART_SIZE` keys) where the kernels are in the
repository, and keeping every guard of the source scatter kernels, most
importantly the FidelityFX guard `localKey != 0xFFFFFFFF` that suppresses the
write of any record whose key equals the padding sentinel, and the fact that
the DeviceRadixSort `dvr_pass` kernel writes only `alt` (keys) and never
`alt_payload`.  Host-side code (buffer creation, scratch initialisation,
error-register checks) is translated statement by statement from the JS.
-/

namespace GpuSort

/-- Record of the data model: `{ key: u32, payload: u32 }`.  The JS test
harness builds them as `{ key, value }` (utils.js `generateTestData`), so the
payload field is called `value` here as well. -/
structure KV where
  key : Nat
  value : Nat
deriving DecidableEq, Repr

/-- Digit extraction, `(key >> radix_shift) & RADIX_MASK` in every shader
(DeviceRadixSort.wgsl line 127, the FidelityFX count pass line 67). -/
def digitOf (shift mask k : Nat) : Nat := (k >>> shift) &&& mask

/-- Digit of a record under a key projection `κ` (`id` for bare key buffers,
`KV.key` for paired records). -/
def keyDigit (κ : α → Nat) (shift mask : Nat) (a : α) : Nat := digitOf shift mask (κ a)

/-- Count of records of `l` whose digit is strictly below `d`: the aggregate
content of the global digit-base table (`hist` after `reduce_hist`, the
FidelityFX `sumTable` after the scan passes). -/
def cntLt (κ : α → Nat) (shift mask : Nat) (l : List α) (d : Nat) : Nat :=
  l.countP (fun a => decide (keyDigit κ shift mask a < d))

/-- Count of records of `l` whose digit equals `d` (one histogram bin). -/
def cntEq (κ : α → Nat) (shift mask : Nat) (l : List α) (d : Nat) : Nat :=
  l.countP (fun a => keyDigit κ shift mask a == d)

/-- Scatter destination of element `i` of `src`, with the whole-buffer view of
the offset tables: count of keys with smaller digit, plus the stable rank of
`i` among earlier keys of equal digit.  The kernels compute the same number as
global digit base + preceding-partition digit count + in-partition rank;
`dvrPos_eq_scatterPos` below proves the tiled form equal to this one. -/
def scatterPos (κ : α → Nat) (dflt : α) (shift mask : Nat) (src : List α) (i : Nat) : Nat :=
  cntLt κ shift mask src (keyDigit κ shift mask (src.getD i dflt))
  + (src.take i).countP (fun a => keyDigit κ shift mask a == keyDigit κ shift mask (src.getD i dflt))

/-- One scatter dispatch: every element of `src` whose write guard `ok` holds
is stored at its position `pos i` of the destination buffer `dst`; a position
nobody writes keeps the previous content of `dst` (GPU buffers are not
cleared by a dispatch).  An out-of-range store is dropped, as WebGPU robust
buffer access does. -/
def scatterFold (dflt : α) (pos : Nat → Nat) (ok : α → Bool) (src dst : List α) : List α :=
  (List.range src.length).foldl
    (fun out i => if ok (src.getD i dflt) then out.set (pos i) (src.getD i dflt) else out) dst

/-- Ping-pong pass loop shared by the three hosts: each pass reads `src`,
writes `dst`, and the next pass swaps the two roles (FidelityFXSort.js
`sourceIndex`/`destIndex`, DeviceRadixSort.js buffer swap after each pass,
OneSweep.js bindings by pass parity).  After the last pass the current source
buffer holds the result, which is what each host downloads. -/
def runPasses (passFn : Nat → List α → List α → List α) : List Nat → List α → List α → List α
  | [], src, _ => src
  | s :: rest, src, dst => runPasses passFn rest (passFn s src dst) src

/-- Records of `l` grouped by digit, digits in increasing order and the
records of one digit in their order of `l`: the stable counting sort that one
full guard-free scatter pass realises (proved equal in
`scatterFold_eq_digitGroups`). -/
def digitGroups (κ : α → Nat) (shift mask : Nat) (l : List α) : List α :=
  (List.range (mask + 1)).flatMap (fun d => l.filter (fun a => keyDigit κ shift mask a == d))

namespace FidelityFXSort

/-- FidelityFXSort.js `SORT_BITS_PER_PASS`. -/
def SORT_BITS_PER_PASS : Nat := 4

/-- FidelityFXSort.js `SORT_BIN_COUNT` (16 digits, mask 0xF). -/
def SORT_BIN_COUNT : Nat := 16

/-- FidelityFXSort.js `TOTAL_PASSES` (32 bits / 4 bits per pass). -/
def TOTAL_PASSES : Nat := 8

/-- The padding sentinel of the FidelityFX kernels: out-of-range lanes load
`0xFFFFFFFFu` (count pass line 57, scatter pass line 93). -/
def SENTINEL : Nat := 0xFFFFFFFF

/-- One FidelityFX pass over (key,value) records, the aggregate of the
count → reduce → scan → scan-add → scatter kernel chain of one
`encodeSortPass`: the scan chain turns `sumTable` into the exclusive offsets
`cntLt digit + count of equal digits in earlier groups`, and the scatter
writes each record at offset + stable local rank.  The scatter guard
`totalOffset < constants.numKeys && localKey != 0xFFFFFFFFu` (scatter pass
line 198) is kept: a record whose key is the sentinel value is never written,
so its destination slot keeps the stale content of `dst`. -/
def ffxScatter (shift : Nat) (src dst : List KV) : List KV :=
  scatterFold ⟨0, 0⟩ (scatterPos KV.key ⟨0, 0⟩ shift (SORT_BIN_COUNT - 1) src)
    (fun r => r.key != SENTINEL) src dst

/-- FidelityFXSort.sort: uploads the records into `keysBuffers[0]` /
`valuesBuffers[0]`, runs 8 passes with `shift = pass * SORT_BITS_PER_PASS`
ping-ponging the two buffer pairs, and downloads the final source pair.
`keysBuffers[1]` / `valuesBuffers[1]` start zero-filled (WebGPU buffers are
created zeroed and FidelityFXSort.js never uploads to them). -/
def sort (data : List KV) : List KV :=
  runPasses ffxScatter ((List.range TOTAL_PASSES).map (fun p => p * SORT_BITS_PER_PASS))
    data (List.replicate data.length ⟨0, 0⟩)

end FidelityFXSort

namespace DeviceRadixSort

/-- DeviceRadixSort.wgsl `BLOCK_DIM`. -/
def BLOCK_DIM : Nat := 256

/-- DeviceRadixSort.wgsl `MIN_SUBGROUP_SIZE`. -/
def MIN_SUBGROUP_SIZE : Nat := 16

/-- DeviceRadixSort.wgsl `MAX_REDUCE_SIZE = BLOCK_DIM / MIN_SUBGROUP_SIZE`:
capacity of the `wg_reduce` spine of the scan kernel. -/
def MAX_REDUCE_SIZE : Nat := BLOCK_DIM / MIN_SUBGROUP_SIZE

/-- DeviceRadixSort.wgsl `RADIX` (8-bit digits). -/
def RADIX : Nat := 256

/-- DeviceRadixSort.wgsl `RADIX_MASK`. -/
def RADIX_MASK : Nat := 255

/-- DeviceRadixSort.wgsl `RADIX_LOG`. -/
def RADIX_LOG : Nat := 8

/-- DeviceRadixSort.wgsl `KEYS_PER_THREAD`. -/
def KEYS_PER_THREAD : Nat := 15

/-- DeviceRadixSort.wgsl `PART_SIZE = KEYS_PER_THREAD * BLOCK_DIM` = 3840
keys per partition / workgroup of `dvr_pass`. -/
def PART_SIZE : Nat := KEYS_PER_THREAD * BLOCK_DIM

/-- DeviceRadixSort.wgsl `REDUCE_BLOCK_DIM`. -/
def REDUCE_BLOCK_DIM : Nat := 128

/-- DeviceRadixSort.wgsl `REDUCE_HIST_SIZE = REDUCE_BLOCK_DIM /
MIN_SUBGROUP_SIZE * RADIX`, the compiled capacity of `wg_globalHist`. -/
def REDUCE_HIST_SIZE : Nat := REDUCE_BLOCK_DIM / MIN_SUBGROUP_SIZE * RADIX

/-- DeviceRadixSort.wgsl `MAX_SUBGROUPS_PER_BLOCK * RADIX`, the compiled
capacity of `wg_warpHist` of `dvr_pass`. -/
def WARP_HIST_CAPACITY : Nat := BLOCK_DIM / MIN_SUBGROUP_SIZE * RADIX

/-- DeviceRadixSort.js `SORT_PASSES`. -/
def SORT_PASSES : Nat := 4

/-- DeviceRadixSort.js `STATUS_ERROR_COUNT` (slots 0..2 of the status buffer
hold error codes). -/
def STATUS_ERROR_COUNT : Nat := 3

/-- DeviceRadixSort.js `STATUS_LENGTH = STATUS_ERROR_COUNT + SORT_PASSES`:
the host allocates `statusBuffer` with this many u32 entries. -/
def STATUS_LENGTH : Nat := STATUS_ERROR_COUNT + SORT_PASSES

/-- DeviceRadixSort.wgsl `STATUS_ERR_REDUCE`. -/
def STATUS_ERR_REDUCE : Nat := 0

/-- DeviceRadixSort.wgsl `STATUS_ERR_SCAN`. -/
def STATUS_ERR_SCAN : Nat := 1

/-- DeviceRadixSort.wgsl `STATUS_ERR_DVR`. -/
def STATUS_ERR_DVR : Nat := 2

/-- DeviceRadixSort.wgsl `STATUS_SUBGROUP_BASE`. -/
def STATUS_SUBGROUP_BASE : Nat := 3

/-- DeviceRadixSort.wgsl `STATUS_SUBGROUP_STRIDE`. -/
def STATUS_SUBGROUP_STRIDE : Nat := 3

/-- DeviceRadixSort.wgsl `STATUS_STAGE_REDUCE`. -/
def STATUS_STAGE_REDUCE : Nat := 0

/-- DeviceRadixSort.wgsl `STATUS_STAGE_SCAN`. -/
def STATUS_STAGE_SCAN : Nat := 1

/-- DeviceRadixSort.wgsl `STATUS_STAGE_DVR`. -/
def STATUS_STAGE_DVR : Nat := 2

/-- Index at which a kernel stores the executing subgroup size into `status`
(`status[STATUS_SUBGROUP_BASE + pass_idx * STATUS_SUBGROUP_STRIDE + stage] =
lane_count`, DeviceRadixSort.wgsl lines 109, 198, 326, with
`pass_idx = info.shift / RADIX_LOG`). -/
def statusIndexOf (pass_idx stage : Nat) : Nat :=
  STATUS_SUBGROUP_BASE + pass_idx * STATUS_SUBGROUP_STRIDE + stage

/-- Partition `p` of a key buffer: the contiguous slice of `partSize` keys a
single workgroup loads (`dev_offset = wgid.x * PART_SIZE`). -/
def partSlice (partSize : Nat) (l : List α) (p : Nat) : List α :=
  (l.drop (p * partSize)).take partSize

/-- Number of dispatched workgroups, `Math.ceil(numKeys / PART_SIZE)`
(DeviceRadixSort.js `threadBlocks`). -/
def numBlocks (partSize n : Nat) : Nat := (n + partSize - 1) / partSize

/-- Count of keys with digit `d` inside partition `p`: what `reduce_hist`
stores at `pass_hist[wgid.x + d * info.thread_blocks]` (line 156). -/
def partCount (shift : Nat) (keys : List Nat) (d p : Nat) : Nat :=
  cntEq id shift RADIX_MASK (partSlice PART_SIZE keys p) d

/-- Aggregate content of `hist[d + info.shift * 32]` after all `reduce_hist`
workgroups ran: each workgroup atomically adds the exclusive digit prefix of
its own partition (count of its keys with digit below `d`, lines 144-174), so
the total is the sum over partitions. -/
def histBase (shift : Nat) (keys : List Nat) (d : Nat) : Nat :=
  ((List.range (numBlocks PART_SIZE keys.length)).map
    (fun p => cntLt id shift RADIX_MASK (partSlice PART_SIZE keys p) d)).sum

/-- Content of `pass_hist[p + d * info.thread_blocks]` after the scan kernel:
the inclusive prefix over partitions `0..p` of the digit-`d` counts. -/
def passHistScanned (shift : Nat) (keys : List Nat) (d p : Nat) : Nat :=
  ((List.range (p + 1)).map (fun q => partCount shift keys d q)).sum

/-- Scatter destination that `dvr_pass` computes for the key at global index
`i` (partition `p = i / PART_SIZE`, local index `j = i % PART_SIZE`):
`wg_localHist[d] + local sorted index` unfolds to global digit base
(`hist[d + info.shift * 32]`) + digit-`d` count of the partitions before `p`
(`pass_hist[wgid.x + info.thread_blocks * d - 1]`, 0 for partition 0, lines
407-411) + the stable in-partition rank the WLMS ranking yields.  The padding
keys (`0xffffffffu` for loads past `info.size`, line 348) occupy the trailing
local indices and carry the maximal digit, so they rank after every real key
and the final guarded store loop (lines 427-432) writes exactly the real
keys. -/
def dvrPos (shift : Nat) (keys : List Nat) (i : Nat) : Nat :=
  let p := i / PART_SIZE
  let j := i % PART_SIZE
  let d := digitOf shift RADIX_MASK (keys.getD i 0)
  histBase shift keys d
  + (if p = 0 then 0 else passHistScanned shift keys d (p - 1))
  + ((partSlice PART_SIZE keys p).take j).countP (fun k => digitOf shift RADIX_MASK k == d)

/-- Net effect of one `dvr_pass` dispatch on the key buffers: every key of
`srcKeys` is stored into `alt` at its scatter position.  Only keys move: the
kernel binds `payload` and `alt_payload` but its store loops (lines 414-433)
write `alt` alone. -/
def dvrPassKernel (shift : Nat) (srcKeys dstKeys : List Nat) : List Nat :=
  scatterFold 0 (dvrPos shift srcKeys) (fun _ => true) srcKeys dstKeys

/-- DeviceRadixSort.sort: uploads `keys` and `values` from the records, runs
4 passes of `reduce_hist` / `scan` / `dvr_pass` with `shift = pass *
RADIX_LOG`, swapping the key buffers after each pass, then downloads the key
buffer and the payload buffer and re-pairs them index by index (lines
730-733).  The payload buffer still holds the uploaded `values` because no
kernel of DeviceRadixSort.wgsl ever writes a payload buffer. -/
def sort (data : List KV) : List KV :=
  let keys := data.map KV.key
  let values := data.map KV.value
  let finalKeys :=
    runPasses dvrPassKernel ((List.range SORT_PASSES).map (fun p => p * RADIX_LOG))
      keys (List.replicate keys.length 0)
  List.zipWith KV.mk finalKeys values

end DeviceRadixSort

namespace OneSweep

/-- OneSweep.js `SORT_PASSES`. -/
def SORT_PASSES : Nat := 4

/-- OneSweep.js `RADIX`. -/
def RADIX : Nat := 256

/-- OneSweep.js `RADIX_LOG`. -/
def RADIX_LOG : Nat := 8

/-- OneSweep.js `PART_SIZE = BLOCK_DIM * KEYS_PER_THREAD` = 3840. -/
def PART_SIZE : Nat := 256 * 15

/-- OneSweep.js `STATUS_ERROR_COUNT` = `STATUS_LENGTH`. -/
def STATUS_ERROR_COUNT : Nat := 3

/-- OneSweep.js `STATUS_LENGTH`. -/
def STATUS_LENGTH : Nat := STATUS_ERROR_COUNT

/-- OneSweep.js line 197 `FLAG_INCLUSIVE`. -/
def FLAG_INCLUSIVE : Nat := 2

/-- Modelled from the spec: the kernel side of OneSweep lives in
`src/shaders/onesweep/OneSweep.wgsl`, which is not among the repository files
here; per spec §4.3/§4.5 each `onesweep_pass` dispatch is a decoupled-lookback
counting scatter that moves key and payload together, stably by the 8-bit
digit of the pass. -/
def onesweepPass (shift : Nat) (src dst : List KV) : List KV :=
  scatterFold ⟨0, 0⟩ (scatterPos KV.key ⟨0, 0⟩ shift (RADIX - 1) src) (fun _ => true) src dst

/-- OneSweep.sort (OneSweep.js lines 169-334): upload, 4 passes with
`shift = pass * RADIX_LOG` alternating the sort/alt and payload/alt-payload
bindings by pass parity, then download from `sortBuffer` / `payloadBuffer`
(the source pair again after the even number of passes). -/
def sort (data : List KV) : List KV :=
  runPasses onesweepPass ((List.range SORT_PASSES).map (fun p => p * RADIX_LOG))
    data (List.replicate data.length ⟨0, 0⟩)

/-- Writes of `arr.set i v` for every index of `idxs`, left to right: the
shape of the JS loops that pre-seed scratch buffers. -/
def setAll (idxs : List Nat) (v : Nat) (arr : List Nat) : List Nat :=
  idxs.foldl (fun a i => a.set i v) arr

/-- The `passHistInit` array OneSweep.js uploads into `passHistBuffer` before
dispatching (lines 196-205): an all-zero array of `threadBlocks * RADIX *
SORT_PASSES` cells, then for every pass and every `bin < RADIX` the cell at
`pass * threadBlocks * RADIX + bin` is set to `FLAG_INCLUSIVE`. -/
def passHistInitArray (threadBlocks : Nat) : List Nat :=
  (List.range SORT_PASSES).foldl
    (fun arr pass =>
      (List.range RADIX).foldl
        (fun arr2 bin => arr2.set (pass * threadBlocks * RADIX + bin) FLAG_INCLUSIVE) arr)
    (List.replicate (threadBlocks * RADIX * SORT_PASSES) 0)

/-- Modelled from the spec: the cell layout of `pass_hist` is fixed by the
absent OneSweep.wgsl; per spec §4.3 and §4.6 the lookback table holds one
status cell per (partition, digit) for each pass, partition-major, so the
cell of pass `pass`, partition `part`, digit bin `digit` sits at this index.
Under this layout the 256 cells OneSweep.js seeds per pass are exactly the
cells of partition 0. -/
def passHistCell (threadBlocks pass part digit : Nat) : Nat :=
  pass * threadBlocks * RADIX + part * RADIX + digit

/-- First nonzero error slot of the downloaded status array (OneSweep.js
lines 303-309, DeviceRadixSort.js lines 699-705: loop over the first
`STATUS_ERROR_COUNT` entries, break at the first nonzero), 0 when all error
slots are clear. -/
def firstErrorCode (errorCount : Nat) (statusArray : List Nat) : Nat :=
  (((statusArray.take errorCount).find? (fun x => x != 0)).getD 0)

/-- Stage number a OneSweep error code decodes to (OneSweep.js lines 311-314:
`global_hist`, `onesweep_scan`, `onesweep_pass`, else unknown = 3). -/
def errorStageOf (code : Nat) : Nat :=
  if code = 0xDEAD0001 then 0
  else if code = 0xDEAD0002 then 1
  else if code = 0xDEAD0004 then 2
  else 3

/-- Tail of OneSweep.sort after the dispatch chain (lines 296-333): download
the status register; if any error slot is nonzero, throw (stage, code) and
return nothing; otherwise return the downloaded sorted records. -/
def sortOutcome (statusArray : List Nat) (downloaded : List KV) : Except (Nat × Nat) (List KV) :=
  let e := firstErrorCode STATUS_ERROR_COUNT statusArray
  if e ≠ 0 then Except.error (errorStageOf e, e) else Except.ok downloaded

/-- OneSweep.js `sort` lines 174-178: a call with more records than the
current capacity raises `maxKeys` to the input length (and recreates the
buffers at the new capacity) before uploading. -/
def ensureCapacity (maxKeys numKeys : Nat) : Nat :=
  if numKeys > maxKeys then numKeys else maxKeys

/-- OneSweep.js `createBuffers` line 97: byte size of each of `sortBuffer`,
`altBuffer`, `payloadBuffer`, `altPayloadBuffer`. -/
def keyBufferBytes (maxKeys : Nat) : Nat := max 16 (maxKeys * 4)

/-- OneSweep.js `createBuffers` lines 130-133: byte size of
`passHistBuffer`, `threadBlocks * RADIX * SORT_PASSES * 4` with `threadBlocks
= Math.ceil(maxKeys / PART_SIZE)`. -/
def passHistBufferBytes (maxKeys : Nat) : Nat :=
  DeviceRadixSort.numBlocks PART_SIZE maxKeys * RADIX * SORT_PASSES * 4

end OneSweep

namespace DeviceRadixSort

/-- Stage number a DeviceRadixSort error code decodes to
(DeviceRadixSort.js lines 707-711: reduce_hist, scan, dvr_pass, else
unknown = 3). -/
def errorStageOf (code : Nat) : Nat :=
  if code = 0xDEAD0001 then 0
  else if code = 0xDEAD0002 then 1
  else if code = 0xDEAD0004 then 2
  else 3

/-- Tail of DeviceRadixSort.sort after the dispatch chain (lines 692-735):
download the status register, check the `STATUS_ERROR_COUNT` error slots, and
either throw (stage, code) or return the downloaded records. -/
def sortOutcome (statusArray : List Nat) (downloaded : List KV) : Except (Nat × Nat) (List KV) :=
  let e := OneSweep.firstErrorCode STATUS_ERROR_COUNT statusArray
  if e ≠ 0 then Except.error (errorStageOf e, e) else Except.ok downloaded

/-- Buffer state a DeviceRadixSort kernel dispatch can touch: the bound
storage buffers of the bind group (bindings 2..8). -/
structure Buffers where
  sortBuf : List Nat
  alt : List Nat
  payload : List Nat
  altPayload : List Nat
  hist : List Nat
  passHist : List Nat
  status : List Nat
deriving DecidableEq, Repr

/-- Flattened `pass_hist` table as `reduce_hist` leaves it,
`pass_hist[wgid.x + d * thread_blocks] = count of digit d in partition
wgid.x` (line 156). -/
def passHistTableReduced (shift : Nat) (keys : List Nat) : List Nat :=
  let tb := numBlocks PART_SIZE keys.length
  (List.range RADIX).flatMap (fun d => (List.range tb).map (fun p => partCount shift keys d p))

/-- Flattened `pass_hist` table as the scan kernel leaves it: each digit row
replaced by its inclusive prefix over partitions. -/
def passHistTableScanned (shift : Nat) (keys : List Nat) : List Nat :=
  let tb := numBlocks PART_SIZE keys.length
  (List.range RADIX).flatMap (fun d => (List.range tb).map (fun p => passHistScanned shift keys d p))

/-- Global digit-base table slice the `reduce_hist` workgroups accumulate
into `hist[d + shift * 32]` for the running pass. -/
def histTable (shift : Nat) (keys : List Nat) : List Nat :=
  (List.range RADIX).map (fun d => histBase shift keys d)

/-- The `reduce_hist` kernel (DeviceRadixSort.wgsl lines 93-175).  Guard
first: a subgroup width below `MIN_SUBGROUP_SIZE`, or one that does not
divide `REDUCE_BLOCK_DIM`, makes thread 0 write the sentinel `0xDEAD0001` to
`status[STATUS_ERR_REDUCE]` and every thread return before any buffer write
(lines 100-105).  Otherwise workgroup 0 records `lane_count` at the
diagnostic index of the pass and the dispatch produces the per-partition
histogram table and the global digit bases. -/
def reduce_hist (lane_count shift : Nat) (st : Buffers) : Buffers :=
  if lane_count < MIN_SUBGROUP_SIZE ∨ REDUCE_BLOCK_DIM % lane_count ≠ 0 then
    { st with status := st.status.set STATUS_ERR_REDUCE 0xDEAD0001 }
  else
    { st with
      status := st.status.set (statusIndexOf (shift / RADIX_LOG) STATUS_STAGE_REDUCE) lane_count
      passHist := passHistTableReduced shift st.sortBuf
      hist := histTable shift st.sortBuf }

/-- The scan kernel (DeviceRadixSort.wgsl lines 182-277).  Guard: width below
`MIN_SUBGROUP_SIZE` or not dividing `BLOCK_DIM` writes `0xDEAD0002` to
`status[STATUS_ERR_SCAN]` and returns (lines 189-194); otherwise the 256
workgroups scan their digit row of `pass_hist` in place. -/
def scan (lane_count shift : Nat) (st : Buffers) : Buffers :=
  if lane_count < MIN_SUBGROUP_SIZE ∨ BLOCK_DIM % lane_count ≠ 0 then
    { st with status := st.status.set STATUS_ERR_SCAN 0xDEAD0002 }
  else
    { st with
      status := st.status.set (statusIndexOf (shift / RADIX_LOG) STATUS_STAGE_SCAN) lane_count
      passHist := passHistTableScanned shift st.sortBuf }

/-- The `dvr_pass` scatter kernel (DeviceRadixSort.wgsl lines 307-433).
Guard: the shared histogram sized at the runtime width,
`(BLOCK_DIM / lane_count) * RADIX`, exceeding the compiled
`WARP_HIST_CAPACITY` writes `0xDEAD0004` to `status[STATUS_ERR_DVR]` and
returns before clearing `wg_warpHist` or writing `alt` (lines 316-322);
otherwise the dispatch scatters the keys of `sort` into `alt`. -/
def dvr_pass (lane_count shift : Nat) (st : Buffers) : Buffers :=
  if BLOCK_DIM / lane_count * RADIX > WARP_HIST_CAPACITY then
    { st with status := st.status.set STATUS_ERR_DVR 0xDEAD0004 }
  else
    { st with
      status := st.status.set (statusIndexOf (shift / RADIX_LOG) STATUS_STAGE_DVR) lane_count
      alt := dvrPassKernel shift st.sortBuf st.alt }

end DeviceRadixSort

namespace OneSweepKernels

/-- Modelled from the spec: the OneSweep kernel entry points (`global_hist`,
`onesweep_scan`, `onesweep_pass` of the absent OneSweep.wgsl) carry the same
subgroup compatibility guard as the DeviceRadixSort kernels (spec §4.4, and
the OneSweep.js decoder maps `0xDEAD0001/2/4` to those three stages): a width
below the compiled minimum of 16, or a runtime-sized shared histogram
exceeding the compiled capacity, writes the stage's sentinel to its error
slot and returns without touching the sort buffers. -/
def global_hist (lane_count : Nat) (status : List Nat) : List Nat :=
  if lane_count < 16 ∨ 128 % lane_count ≠ 0 then status.set 0 0xDEAD0001 else status

/-- Modelled from the spec: guard of the `onesweep_scan` entry point, see
`OneSweepKernels.global_hist`. -/
def onesweep_scan (lane_count : Nat) (status : List Nat) : List Nat :=
  if lane_count < 16 ∨ 256 % lane_count ≠ 0 then status.set 1 0xDEAD0002 else status

/-- Modelled from the spec: guard of the `onesweep_pass` entry point, see
`OneSweepKernels.global_hist`. -/
def onesweep_pass (lane_count : Nat) (status : List Nat) : List Nat :=
  if 256 / lane_count * 256 > 4096 then status.set 2 0xDEAD0004 else status

end OneSweepKernels

/-- utils.js `validateSort`: count of adjacent inversions
(`data[i-1].key > data[i].key`); the run is valid when there are none. -/
def validateSortErrors (data : List KV) : Nat :=
  (data.zip data.tail).countP (fun p => decide (p.1.key > p.2.key))

/-- utils.js `validateSort` field `isSorted`. -/
def isSorted (data : List KV) : Bool := validateSortErrors data == 0

/-- Result record of utils.js `compareArrays` (`match` is a Lean keyword, so
the field is `isMatch`). -/
structure CompareResult where
  isMatch : Bool
  differences : Nat
deriving DecidableEq, Repr

/-- utils.js `compareArrays`: length mismatch reports the length difference;
otherwise the number of indices whose keys differ, matching iff zero. -/
def compareArrays (a b : List KV) : CompareResult :=
  if a.length ≠ b.length then ⟨false, max a.length b.length - min a.length b.length⟩
  else
    let differences := (a.zip b).countP (fun p => p.1.key != p.2.key)
    ⟨differences == 0, differences⟩

end GpuSort

namespace GpuSort

/-! Lemmas about `OneSweep.setAll`, the shape of the host loops that pre-seed
scratch buffers. -/

theorem setAll_append (xs ys : List Nat) (v : Nat) (arr : List Nat) :
    OneSweep.setAll (xs ++ ys) v arr = OneSweep.setAll ys v (OneSweep.setAll xs v arr) := by
  simp [OneSweep.setAll, List.foldl_append]

theorem length_setAll (idxs : List Nat) (v : Nat) (arr : List Nat) :
    (OneSweep.setAll idxs v arr).length = arr.length := by
  induction idxs generalizing arr with
  | nil => rfl
  | cons i is ih => simpa [OneSweep.setAll] using ih (arr.set i v)

theorem getD_setAll (idxs : List Nat) (v : Nat) (arr : List Nat) (j d : Nat) :
    (OneSweep.setAll idxs v arr).getD j d =
      if j ∈ idxs ∧ j < arr.length then v else arr.getD j d := by
  induction idxs generalizing arr with
  | nil => simp [OneSweep.setAll]
  | cons i is ih =>
    have step : OneSweep.setAll (i :: is) v arr = OneSweep.setAll is v (arr.set i v) := rfl
    rw [step, ih (arr.set i v)]
    by_cases hmem : j ∈ is
    · by_cases hlen : j < arr.length
      · simp [hmem, hlen]
      · have hnone : (arr.set i v)[j]? = none :=
          List.getElem?_eq_none (by simpa using Nat.le_of_not_lt hlen)
        have hnone2 : arr[j]? = none := List.getElem?_eq_none (Nat.le_of_not_lt hlen)
        simp [hmem, hlen, List.getD_eq_getElem?_getD, hnone, hnone2]
    · by_cases hij : j = i
      · subst hij
        by_cases hlen : j < arr.length
        · simp [hmem, hlen, List.getD_eq_getElem?_getD, List.getElem?_set_self hlen]
        · have hnone : (arr.set j v)[j]? = none :=
            List.getElem?_eq_none (by simpa using Nat.le_of_not_lt hlen)
          have hnone2 : arr[j]? = none := List.getElem?_eq_none (Nat.le_of_not_lt hlen)
          simp [hmem, hlen, List.getD_eq_getElem?_getD, hnone, hnone2]
      · have hset : (arr.set i v)[j]? = arr[j]? := List.getElem?_set_ne (fun h => hij h.symm)
        simp [hmem, hij, List.getD_eq_getElem?_getD, hset]

theorem foldl_set_map (f : Nat → Nat) (is : List Nat) (v : Nat) (arr : List Nat) :
    is.foldl (fun a i => a.set (f i) v) arr = OneSweep.setAll (is.map f) v arr := by
  rw [OneSweep.setAll, List.foldl_map]

theorem foldl_setAll_flatMap (g : Nat → List Nat) (ps : List Nat) (v : Nat) (arr : List Nat) :
    ps.foldl (fun a p => OneSweep.setAll (g p) v a) arr = OneSweep.setAll (ps.flatMap g) v arr := by
  induction ps generalizing arr with
  | nil => rfl
  | cons p rest ih =>
    simp only [List.foldl_cons, List.flatMap_cons, setAll_append]
    exact ih (OneSweep.setAll (g p) v arr)

theorem passHistInitArray_eq_setAll (tb : Nat) :
    OneSweep.passHistInitArray tb =
      OneSweep.setAll
        ((List.range OneSweep.SORT_PASSES).flatMap
          (fun pass => (List.range OneSweep.RADIX).map
            (fun bin => pass * tb * OneSweep.RADIX + bin)))
        OneSweep.FLAG_INCLUSIVE
        (List.replicate (tb * OneSweep.RADIX * OneSweep.SORT_PASSES) 0) := by
  rw [OneSweep.passHistInitArray, ← foldl_setAll_flatMap]
  simp only [foldl_set_map]

theorem getD_replicate_zero (n j : Nat) : (List.replicate n (0 : Nat)).getD j 0 = 0 := by
  rw [List.getD_eq_getElem?_getD, List.getElem?_replicate]
  by_cases h : j < n <;> simp [h]

end GpuSort

namespace GpuSort

/-- Claim C5: at the start of every OneSweep sort invocation, before any
dispatch, the lookback table upload seeds, for every pass, the cell of
partition 0 of each of the 256 digit bins with the packed value
`(0 << 2) | FLAG_INCLUSIVE = 2` (INCLUSIVE_READY, running count 0), and every
cell of every other partition with 0 (NOT_READY). -/
theorem C5_lookback_table_reset (threadBlocks pass part digit : Nat)
    (hpass : pass < OneSweep.SORT_PASSES) (hpart : part < threadBlocks)
    (hdigit : digit < OneSweep.RADIX) :
    (OneSweep.passHistInitArray threadBlocks).getD
        (OneSweep.passHistCell threadBlocks pass part digit) 0
      = if part = 0 then OneSweep.FLAG_INCLUSIVE else 0 := by
  have h0tb : 0 < threadBlocks := Nat.lt_of_le_of_lt (Nat.zero_le part) hpart
  have hR : OneSweep.RADIX = 256 := rfl
  have hS : OneSweep.SORT_PASSES = 4 := rfl
  rw [hR] at hdigit; rw [hS] at hpass
  rw [passHistInitArray_eq_setAll, getD_setAll]
  by_cases hp0 : part = 0
  · subst hp0
    have hmem : OneSweep.passHistCell threadBlocks pass 0 digit ∈
        (List.range OneSweep.SORT_PASSES).flatMap
          (fun pass => (List.range OneSweep.RADIX).map
            (fun bin => pass * threadBlocks * OneSweep.RADIX + bin)) := by
      simp only [List.mem_flatMap, List.mem_map, List.mem_range, hR, hS]
      exact ⟨pass, hpass, digit, hdigit, by simp [OneSweep.passHistCell, hR]⟩
    have hlen : OneSweep.passHistCell threadBlocks pass 0 digit <
        threadBlocks * OneSweep.RADIX * OneSweep.SORT_PASSES := by
      simp only [OneSweep.passHistCell, hR, hS]
      have h1 : digit < threadBlocks * 256 :=
        lt_of_lt_of_le hdigit (Nat.le_mul_of_pos_left 256 h0tb)
      calc pass * threadBlocks * 256 + 0 * 256 + digit
          = pass * (threadBlocks * 256) + digit := by ring
        _ < pass * (threadBlocks * 256) + threadBlocks * 256 := by omega
        _ = (pass + 1) * (threadBlocks * 256) := by ring
        _ ≤ 4 * (threadBlocks * 256) := Nat.mul_le_mul_right _ (by omega)
        _ = threadBlocks * 256 * 4 := by ring
    simp [hmem, hlen]
  · have hnot : OneSweep.passHistCell threadBlocks pass part digit ∉
        (List.range OneSweep.SORT_PASSES).flatMap
          (fun pass => (List.range OneSweep.RADIX).map
            (fun bin => pass * threadBlocks * OneSweep.RADIX + bin)) := by
      simp only [List.mem_flatMap, List.mem_map, List.mem_range, hR, hS]
      rintro ⟨q, hq, b, hb, heq⟩
      have hlt1 : part * 256 + digit < threadBlocks * 256 := by
        have hstep : part * 256 + digit < (part + 1) * 256 := by omega
        exact lt_of_lt_of_le hstep (Nat.mul_le_mul_right 256 hpart)
      have hb2 : b < threadBlocks * 256 :=
        lt_of_lt_of_le hb (Nat.le_mul_of_pos_left 256 h0tb)
      have hmodL : (pass * threadBlocks * 256 + part * 256 + digit) % (threadBlocks * 256)
          = part * 256 + digit := by
        have harr : pass * threadBlocks * 256 + part * 256 + digit
            = threadBlocks * 256 * pass + (part * 256 + digit) := by ring
        rw [harr, Nat.mul_add_mod, Nat.mod_eq_of_lt hlt1]
      have hmodR : (q * threadBlocks * 256 + b) % (threadBlocks * 256) = b := by
        have harr : q * threadBlocks * 256 + b = threadBlocks * 256 * q + b := by ring
        rw [harr, Nat.mul_add_mod, Nat.mod_eq_of_lt hb2]
      have hcell : OneSweep.passHistCell threadBlocks pass part digit
          = pass * threadBlocks * 256 + part * 256 + digit := by
        simp [OneSweep.passHistCell, hR]
      rw [hcell] at heq
      rw [heq] at hmodR
      rw [hmodL] at hmodR
      omega
    simp [hnot, getD_replicate_zero, hp0]

/-- Witness for C5 at `threadBlocks = 2`, `pass = 1`: the digit-7 cell of
partition 0 holds INCLUSIVE_READY with count 0, the digit-7 cell of
partition 1 holds NOT_READY. -/
theorem C5_lookback_table_reset_witness :
    (OneSweep.passHistInitArray 2).getD (OneSweep.passHistCell 2 1 0 7) 0 = 2
    ∧ (OneSweep.passHistInitArray 2).getD (OneSweep.passHistCell 2 1 1 7) 0 = 0 := by
  constructor
  · exact C5_lookback_table_reset 2 1 0 7 (by decide) (by decide) (by decide)
  · exact C5_lookback_table_reset 2 1 1 7 (by decide) (by decide) (by decide)

end GpuSort

namespace GpuSort

/-- The first-nonzero scan of the host error loop returns 0 exactly when
every checked error slot is clear. -/
theorem firstErrorCode_eq_zero_iff (cnt : Nat) (s : List Nat) :
    OneSweep.firstErrorCode cnt s = 0 ↔ ∀ i, i < cnt → s.getD i 0 = 0 := by
  unfold OneSweep.firstErrorCode
  cases hfind : (s.take cnt).find? (fun x => x != 0) with
  | none =>
    simp only [Option.getD_none]
    constructor
    · intro _ i hi
      rw [List.getD_eq_getElem?_getD]
      cases hget : s[i]? with
      | none => rfl
      | some x =>
        have hmem : x ∈ s.take cnt := by
          rw [List.mem_iff_getElem?]
          exact ⟨i, by rw [List.getElem?_take, if_pos hi, hget]⟩
        have := (List.find?_eq_none.mp hfind) x hmem
        simp only [bne_iff_ne, ne_eq, not_not] at this
        simp [this]
    · intro _
      trivial
  | some v =>
    have hv : v ≠ 0 := by
      have := List.find?_some hfind
      simpa [bne_iff_ne] using this
    simp only [Option.getD_some]
    constructor
    · intro h
      exact absurd h hv
    · intro hall
      exfalso
      have hmem : v ∈ s.take cnt := List.mem_of_find?_eq_some hfind
      obtain ⟨n, hn⟩ := List.mem_iff_getElem?.mp hmem
      have hncnt : n < cnt := by
        by_contra hge
        rw [List.getElem?_take, if_neg hge] at hn
        exact Option.noConfusion hn
      rw [List.getElem?_take, if_pos hncnt] at hn
      have := hall n hncnt
      rw [List.getD_eq_getElem?_getD, hn] at this
      exact hv this

/-- Claim C4: after the dispatch chain, the host checks every error slot of
the status register; any nonzero slot makes `sort` surface a structured
error — the decoded stage and the first nonzero code — and return no sorted
records, while all-zero slots make it return the downloaded pairs.  This
holds for both hosts that own an Error/Status Register (OneSweep.js and
DeviceRadixSort.js; both check slots `0..STATUS_ERROR_COUNT-1`).  Neither
host re-dispatches: `sortOutcome` is the only exit of `sort`. -/
theorem C4_host_checks_error_register (status : List Nat) (downloaded : List KV) :
    ((∀ i, i < OneSweep.STATUS_ERROR_COUNT → status.getD i 0 = 0) →
      OneSweep.sortOutcome status downloaded = Except.ok downloaded
      ∧ DeviceRadixSort.sortOutcome status downloaded = Except.ok downloaded)
    ∧ ((∃ i, i < OneSweep.STATUS_ERROR_COUNT ∧ status.getD i 0 ≠ 0) →
      (OneSweep.sortOutcome status downloaded
          = Except.error (OneSweep.errorStageOf (OneSweep.firstErrorCode 3 status),
              OneSweep.firstErrorCode 3 status)
        ∧ DeviceRadixSort.sortOutcome status downloaded
          = Except.error (DeviceRadixSort.errorStageOf (OneSweep.firstErrorCode 3 status),
              OneSweep.firstErrorCode 3 status))
      ∧ ∀ out : List KV, OneSweep.sortOutcome status downloaded ≠ Except.ok out
        ∧ DeviceRadixSort.sortOutcome status downloaded ≠ Except.ok out) := by
  have hcnt : OneSweep.STATUS_ERROR_COUNT = 3 := rfl
  have hcnt2 : DeviceRadixSort.STATUS_ERROR_COUNT = 3 := rfl
  constructor
  · intro hall
    have hzero : OneSweep.firstErrorCode 3 status = 0 :=
      (firstErrorCode_eq_zero_iff 3 status).mpr (by simpa [hcnt] using hall)
    constructor
    · simp [OneSweep.sortOutcome, hcnt, hzero]
    · simp [DeviceRadixSort.sortOutcome, hcnt2, hzero]
  · intro hex
    have hne : OneSweep.firstErrorCode 3 status ≠ 0 := by
      intro h0
      obtain ⟨i, hi, hv⟩ := hex
      exact hv ((firstErrorCode_eq_zero_iff 3 status).mp h0 i (by simpa [hcnt] using hi))
    refine ⟨⟨?_, ?_⟩, ?_⟩
    · simp [OneSweep.sortOutcome, hcnt, hne]
    · simp [DeviceRadixSort.sortOutcome, hcnt2, hne]
    · intro out
      constructor
      · simp [OneSweep.sortOutcome, hcnt, hne]
      · simp [DeviceRadixSort.sortOutcome, hcnt2, hne]

/-- Witness for C4: a status register with a nonzero code in slot 1 makes
both hosts throw (stage `onesweep_scan` / `scan` = 1, code 0xDEAD0002) and
return no result, while an all-zero register returns the downloaded pair. -/
theorem C4_host_checks_error_register_witness :
    (OneSweep.sortOutcome [0, 0, 0] [⟨1, 2⟩] = Except.ok [⟨1, 2⟩]
      ∧ DeviceRadixSort.sortOutcome [0, 0, 0] [⟨1, 2⟩] = Except.ok [⟨1, 2⟩])
    ∧ OneSweep.sortOutcome [0, 0xDEAD0002, 0] [⟨1, 2⟩] = Except.error (1, 0xDEAD0002) := by
  refine ⟨(C4_host_checks_error_register [0, 0, 0] [⟨1, 2⟩]).1 (by decide), ?_⟩
  have h := ((C4_host_checks_error_register [0, 0xDEAD0002, 0] [⟨1, 2⟩]).2
    ⟨1, by decide, by decide⟩).1.1
  simpa using h

end GpuSort

namespace GpuSort

/-- Setting one list entry leaves every other entry unchanged. -/
theorem getD_set_ne (s : List Nat) (idx v i : Nat) (h : idx ≠ i) :
    (s.set idx v).getD i 0 = s.getD i 0 := by
  rw [List.getD_eq_getElem?_getD, List.getD_eq_getElem?_getD, List.getElem?_set_ne h]

/-- For the subgroup widths WebGPU can report (powers of two up to 128), the
`reduce_hist` guard `lane_count < MIN_SUBGROUP_SIZE || REDUCE_BLOCK_DIM %
lane_count != 0` coincides with the claim's condition: width below the
compiled minimum, or runtime-sized shared histogram
(`REDUCE_BLOCK_DIM / lane_count * RADIX`) over the compiled capacity. -/
theorem reduce_hist_guard_iff (k : Nat) (hk : k ≤ 7) :
    (2 ^ k < DeviceRadixSort.MIN_SUBGROUP_SIZE ∨ DeviceRadixSort.REDUCE_BLOCK_DIM % 2 ^ k ≠ 0)
      ↔ (2 ^ k < DeviceRadixSort.MIN_SUBGROUP_SIZE
        ∨ DeviceRadixSort.REDUCE_BLOCK_DIM / 2 ^ k * DeviceRadixSort.RADIX
            > DeviceRadixSort.REDUCE_HIST_SIZE) := by
  interval_cases k <;> decide

/-- Same coincidence for the scan kernel, whose shared spine `wg_reduce`
holds `BLOCK_DIM / lane_count` slots against capacity `MAX_REDUCE_SIZE`. -/
theorem scan_guard_iff (k : Nat) (hk : k ≤ 7) :
    (2 ^ k < DeviceRadixSort.MIN_SUBGROUP_SIZE ∨ DeviceRadixSort.BLOCK_DIM % 2 ^ k ≠ 0)
      ↔ (2 ^ k < DeviceRadixSort.MIN_SUBGROUP_SIZE
        ∨ DeviceRadixSort.BLOCK_DIM / 2 ^ k > DeviceRadixSort.MAX_REDUCE_SIZE) := by
  interval_cases k <;> decide

/-- Same coincidence for `dvr_pass`: its capacity check
`BLOCK_DIM / lane_count * RADIX > WARP_HIST_CAPACITY` already subsumes the
minimum-width check at power-of-two widths. -/
theorem dvr_pass_guard_iff (k : Nat) (hk : k ≤ 7) :
    (DeviceRadixSort.BLOCK_DIM / 2 ^ k * DeviceRadixSort.RADIX > DeviceRadixSort.WARP_HIST_CAPACITY)
      ↔ (2 ^ k < DeviceRadixSort.MIN_SUBGROUP_SIZE
        ∨ DeviceRadixSort.BLOCK_DIM / 2 ^ k * DeviceRadixSort.RADIX
            > DeviceRadixSort.WARP_HIST_CAPACITY) := by
  interval_cases k <;> decide

/-- Claim C3: for every kernel of the engines that carry compiled subgroup
assumptions, at every WebGPU subgroup width (a power of two, at most 128): if
the width is below the compiled minimum or the shared histogram sized at the
runtime width exceeds the compiled capacity, the kernel writes its
distinguishing sentinel to its own slot of the Error/Status Register and
returns with every other buffer untouched; otherwise it leaves the error
slots unchanged (its only status write is the subgroup diagnostic at index
`statusIndexOf ≥ STATUS_SUBGROUP_BASE`).  The three OneSweep entry points are
modelled from the spec (their WGSL is not in the repository); the FidelityFX
kernels size their shared arrays for every width and own no error register,
so the claim is vacuous for them. -/
theorem C3_kernels_fail_fast (k : Nat) (hk : k ≤ 7) (lane_count : Nat)
    (hlc : lane_count = 2 ^ k) (shift : Nat) (st : DeviceRadixSort.Buffers)
    (osStatus : List Nat) :
    (((lane_count < DeviceRadixSort.MIN_SUBGROUP_SIZE
        ∨ DeviceRadixSort.REDUCE_BLOCK_DIM / lane_count * DeviceRadixSort.RADIX
            > DeviceRadixSort.REDUCE_HIST_SIZE) →
        DeviceRadixSort.reduce_hist lane_count shift st
          = { st with status := st.status.set DeviceRadixSort.STATUS_ERR_REDUCE 0xDEAD0001 })
      ∧ (¬ (lane_count < DeviceRadixSort.MIN_SUBGROUP_SIZE
        ∨ DeviceRadixSort.REDUCE_BLOCK_DIM / lane_count * DeviceRadixSort.RADIX
            > DeviceRadixSort.REDUCE_HIST_SIZE) →
        ∀ i, i < DeviceRadixSort.STATUS_ERROR_COUNT →
          (DeviceRadixSort.reduce_hist lane_count shift st).status.getD i 0
            = st.status.getD i 0))
    ∧ (((lane_count < DeviceRadixSort.MIN_SUBGROUP_SIZE
        ∨ DeviceRadixSort.BLOCK_DIM / lane_count > DeviceRadixSort.MAX_REDUCE_SIZE) →
        DeviceRadixSort.scan lane_count shift st
          = { st with status := st.status.set DeviceRadixSort.STATUS_ERR_SCAN 0xDEAD0002 })
      ∧ (¬ (lane_count < DeviceRadixSort.MIN_SUBGROUP_SIZE
        ∨ DeviceRadixSort.BLOCK_DIM / lane_count > DeviceRadixSort.MAX_REDUCE_SIZE) →
        ∀ i, i < DeviceRadixSort.STATUS_ERROR_COUNT →
          (DeviceRadixSort.scan lane_count shift st).status.getD i 0 = st.status.getD i 0))
    ∧ (((lane_count < DeviceRadixSort.MIN_SUBGROUP_SIZE
        ∨ DeviceRadixSort.BLOCK_DIM / lane_count * DeviceRadixSort.RADIX
            > DeviceRadixSort.WARP_HIST_CAPACITY) →
        DeviceRadixSort.dvr_pass lane_count shift st
          = { st with status := st.status.set DeviceRadixSort.STATUS_ERR_DVR 0xDEAD0004 })
      ∧ (¬ (lane_count < DeviceRadixSort.MIN_SUBGROUP_SIZE
        ∨ DeviceRadixSort.BLOCK_DIM / lane_count * DeviceRadixSort.RADIX
            > DeviceRadixSort.WARP_HIST_CAPACITY) →
        ∀ i, i < DeviceRadixSort.STATUS_ERROR_COUNT →
          (DeviceRadixSort.dvr_pass lane_count shift st).status.getD i 0
            = st.status.getD i 0))
    ∧ ((lane_count < 16 ∨ 128 / lane_count * 256 > 2048 →
        OneSweepKernels.global_hist lane_count osStatus = osStatus.set 0 0xDEAD0001)
      ∧ (¬ (lane_count < 16 ∨ 128 / lane_count * 256 > 2048) →
        OneSweepKernels.global_hist lane_count osStatus = osStatus))
    ∧ ((lane_count < 16 ∨ 256 / lane_count > 16 →
        OneSweepKernels.onesweep_scan lane_count osStatus = osStatus.set 1 0xDEAD0002)
      ∧ (¬ (lane_count < 16 ∨ 256 / lane_count > 16) →
        OneSweepKernels.onesweep_scan lane_count osStatus = osStatus))
    ∧ ((lane_count < 16 ∨ 256 / lane_count * 256 > 4096 →
        OneSweepKernels.onesweep_pass lane_count osStatus = osStatus.set 2 0xDEAD0004)
      ∧ (¬ (lane_count < 16 ∨ 256 / lane_count * 256 > 4096) →
        OneSweepKernels.onesweep_pass lane_count osStatus = osStatus)) := by
  subst hlc
  have hr := reduce_hist_guard_iff k hk
  have hs := scan_guard_iff k hk
  have hd := dvr_pass_guard_iff k hk
  refine ⟨⟨?_, ?_⟩, ⟨?_, ?_⟩, ⟨?_, ?_⟩, ⟨?_, ?_⟩, ⟨?_, ?_⟩, ⟨?_, ?_⟩⟩
  · intro hcond
    rw [DeviceRadixSort.reduce_hist, if_pos (hr.mpr hcond)]
  · intro hcond i hi
    rw [DeviceRadixSort.reduce_hist, if_neg (fun h => hcond (hr.mp h))]
    exact getD_set_ne _ _ _ _ (by
      have : DeviceRadixSort.statusIndexOf (shift / DeviceRadixSort.RADIX_LOG)
          DeviceRadixSort.STATUS_STAGE_REDUCE ≥ 3 := by
        simp only [DeviceRadixSort.statusIndexOf, DeviceRadixSort.STATUS_SUBGROUP_BASE]
        omega
      have hi3 : i < 3 := hi
      omega)
  · intro hcond
    rw [DeviceRadixSort.scan, if_pos (hs.mpr hcond)]
  · intro hcond i hi
    rw [DeviceRadixSort.scan, if_neg (fun h => hcond (hs.mp h))]
    exact getD_set_ne _ _ _ _ (by
      have : DeviceRadixSort.statusIndexOf (shift / DeviceRadixSort.RADIX_LOG)
          DeviceRadixSort.STATUS_STAGE_SCAN ≥ 3 := by
        simp only [DeviceRadixSort.statusIndexOf, DeviceRadixSort.STATUS_SUBGROUP_BASE]
        omega
      have hi3 : i < 3 := hi
      omega)
  · intro hcond
    rw [DeviceRadixSort.dvr_pass, if_pos (hd.mpr hcond)]
  · intro hcond i hi
    rw [DeviceRadixSort.dvr_pass, if_neg (fun h => hcond (hd.mp h))]
    exact getD_set_ne _ _ _ _ (by
      have : DeviceRadixSort.statusIndexOf (shift / DeviceRadixSort.RADIX_LOG)
          DeviceRadixSort.STATUS_STAGE_DVR ≥ 3 := by
        simp only [DeviceRadixSort.statusIndexOf, DeviceRadixSort.STATUS_SUBGROUP_BASE]
        omega
      have hi3 : i < 3 := hi
      omega)
  · intro hcond
    rw [OneSweepKernels.global_hist,
      if_pos (by revert hcond; interval_cases k <;> decide)]
  · intro hcond
    rw [OneSweepKernels.global_hist,
      if_neg (by revert hcond; interval_cases k <;> decide)]
  · intro hcond
    rw [OneSweepKernels.onesweep_scan,
      if_pos (by revert hcond; interval_cases k <;> decide)]
  · intro hcond
    rw [OneSweepKernels.onesweep_scan,
      if_neg (by revert hcond; interval_cases k <;> decide)]
  · intro hcond
    rw [OneSweepKernels.onesweep_pass,
      if_pos (by revert hcond; interval_cases k <;> decide)]
  · intro hcond
    rw [OneSweepKernels.onesweep_pass,
      if_neg (by revert hcond; interval_cases k <;> decide)]

end GpuSort

namespace GpuSort

/-- Witness for C3 at concrete widths: at 8 lanes (below the compiled
minimum 16) `dvr_pass` writes its sentinel and leaves the other buffers
alone; at 32 lanes the modelled OneSweep `global_hist` writes no error. -/
theorem C3_kernels_fail_fast_witness :
    DeviceRadixSort.dvr_pass 8 0 ⟨[5, 1], [0, 0], [7, 9], [0, 0], [], [], [0, 0, 0, 0, 0, 0, 0]⟩
      = ⟨[5, 1], [0, 0], [7, 9], [0, 0], [], [], [0, 0, 0xDEAD0004, 0, 0, 0, 0]⟩
    ∧ OneSweepKernels.global_hist 32 [0, 0, 0] = [0, 0, 0] := by
  constructor
  · have h := ((C3_kernels_fail_fast 3 (by decide) 8 (by decide) 0
        ⟨[5, 1], [0, 0], [7, 9], [0, 0], [], [], [0, 0, 0, 0, 0, 0, 0]⟩ [0, 0, 0]).2.2.1).1
      (by decide)
    rw [h]
    rfl
  · exact ((C3_kernels_fail_fast 5 (by decide) 32 (by decide) 0
      ⟨[5, 1], [0, 0], [7, 9], [0, 0], [], [], [0, 0, 0, 0, 0, 0, 0]⟩ [0, 0, 0]).2.2.2.1).2
      (by decide)

/-- Claim C10: a OneSweep sort of more records than the current capacity
raises `maxKeys` to the input length and recreates the buffers at the new
capacity before uploading; consequently each key/payload/scratch buffer holds
at least `4 * numKeys` bytes and the lookback table holds at least
`ceil(numKeys / PART_SIZE) * RADIX * SORT_PASSES` cells. -/
theorem C10_capacity_growth (maxKeys numKeys : Nat) :
    (numKeys > maxKeys → OneSweep.ensureCapacity maxKeys numKeys = numKeys)
    ∧ OneSweep.keyBufferBytes (OneSweep.ensureCapacity maxKeys numKeys) ≥ 4 * numKeys
    ∧ OneSweep.passHistBufferBytes (OneSweep.ensureCapacity maxKeys numKeys) / 4
        ≥ DeviceRadixSort.numBlocks OneSweep.PART_SIZE numKeys
            * OneSweep.RADIX * OneSweep.SORT_PASSES := by
  have hcap : numKeys ≤ OneSweep.ensureCapacity maxKeys numKeys := by
    unfold OneSweep.ensureCapacity
    by_cases h : numKeys > maxKeys
    · simp [h]
    · simp [h]; omega
  refine ⟨?_, ?_, ?_⟩
  · intro h
    unfold OneSweep.ensureCapacity
    simp [h]
  · unfold OneSweep.keyBufferBytes
    calc 4 * numKeys ≤ 4 * OneSweep.ensureCapacity maxKeys numKeys :=
          Nat.mul_le_mul_left 4 hcap
      _ = OneSweep.ensureCapacity maxKeys numKeys * 4 := Nat.mul_comm _ _
      _ ≤ max 16 (OneSweep.ensureCapacity maxKeys numKeys * 4) := Nat.le_max_right _ _
  · unfold OneSweep.passHistBufferBytes
    rw [Nat.mul_div_cancel _ (by omega)]
    have hblocks : DeviceRadixSort.numBlocks OneSweep.PART_SIZE numKeys
        ≤ DeviceRadixSort.numBlocks OneSweep.PART_SIZE (OneSweep.ensureCapacity maxKeys numKeys) := by
      unfold DeviceRadixSort.numBlocks
      exact Nat.div_le_div_right (by omega)
    calc DeviceRadixSort.numBlocks OneSweep.PART_SIZE numKeys
          * OneSweep.RADIX * OneSweep.SORT_PASSES
        ≤ DeviceRadixSort.numBlocks OneSweep.PART_SIZE (OneSweep.ensureCapacity maxKeys numKeys)
          * OneSweep.RADIX * OneSweep.SORT_PASSES := by
          exact Nat.mul_le_mul_right _ (Nat.mul_le_mul_right _ hblocks)

/-- Witness for C10: a sort of 5000 records on an instance sized for 10
records grows the capacity to 5000; the key buffers then hold 20000 bytes and
the lookback table two partitions' worth of cells. -/
theorem C10_capacity_growth_witness :
    OneSweep.ensureCapacity 10 5000 = 5000
    ∧ OneSweep.keyBufferBytes (OneSweep.ensureCapacity 10 5000) ≥ 4 * 5000 := by
  have h := C10_capacity_growth 10 5000
  exact ⟨h.1 (by decide), h.2.1⟩

/-- Claim C9 fails on the code: the DeviceRadixSort shader records the
subgroup size at `STATUS_SUBGROUP_BASE + pass_idx * STATUS_SUBGROUP_STRIDE +
stage`; already for pass 1 (`info.shift = 8`) the scan-stage index is 7,
which is not below the host's `STATUS_LENGTH = STATUS_ERROR_COUNT +
SORT_PASSES = 7`, and the largest diagnostic index is 14.  The host buffer is
sized for one entry per pass while the shader strides three per pass. -/
theorem C9_status_index_exceeds_buffer :
    DeviceRadixSort.STATUS_LENGTH = 7
    ∧ DeviceRadixSort.statusIndexOf (8 / DeviceRadixSort.RADIX_LOG)
        DeviceRadixSort.STATUS_STAGE_SCAN = 7
    ∧ ¬ DeviceRadixSort.statusIndexOf (8 / DeviceRadixSort.RADIX_LOG)
        DeviceRadixSort.STATUS_STAGE_SCAN < DeviceRadixSort.STATUS_LENGTH
    ∧ DeviceRadixSort.statusIndexOf (24 / DeviceRadixSort.RADIX_LOG)
        DeviceRadixSort.STATUS_STAGE_DVR = 14
    ∧ DeviceRadixSort.statusIndexOf 0 DeviceRadixSort.STATUS_STAGE_REDUCE
        < DeviceRadixSort.STATUS_LENGTH := by
  decide

/-- Claim C1 fails on the code: on the input [{0xFFFFFFFF, 0}, {5, 1}] the
FidelityFX engine returns the key sequence [5, 0] — the scatter guard
`localKey != 0xFFFFFFFFu` drops the record whose key equals the padding
sentinel, its slot keeps the zeroed pong buffer, and the result is not
monotonically non-decreasing (the repository's own `validateSort` reports it
unsorted).  The DeviceRadixSort key sequence on the same input is sorted. -/
theorem C1_fidelityfx_sentinel_key_unsorted :
    FidelityFXSort.sort [⟨0xFFFFFFFF, 0⟩, ⟨5, 1⟩] = [⟨5, 1⟩, ⟨0, 0⟩]
    ∧ isSorted (FidelityFXSort.sort [⟨0xFFFFFFFF, 0⟩, ⟨5, 1⟩]) = false
    ∧ isSorted (DeviceRadixSort.sort [⟨0xFFFFFFFF, 0⟩, ⟨5, 1⟩]) = true := by
  decide

/-- Claim C2 fails on the code twice over.  DeviceRadixSort: `dvr_pass`
scatters keys only, the payload buffer keeps the upload order, so sorting
[{5,0}, {1,1}] returns [{1,0}, {5,1}] — both pairs re-paired, the output
multiset differs from the input multiset.  FidelityFX: a record with key
0xFFFFFFFF is dropped entirely (its slot keeps the zeroed buffer), so the
pair {0xFFFFFFFF, 7} comes back as {0, 0}. -/
theorem C2_pairs_not_preserved :
    DeviceRadixSort.sort [⟨5, 0⟩, ⟨1, 1⟩] = [⟨1, 0⟩, ⟨5, 1⟩]
    ∧ ¬ (DeviceRadixSort.sort [⟨5, 0⟩, ⟨1, 1⟩]).Perm [⟨5, 0⟩, ⟨1, 1⟩]
    ∧ FidelityFXSort.sort [⟨0xFFFFFFFF, 7⟩] = [⟨0, 0⟩] := by
  decide

/-- Claim C6 fails on the code: on [{0xFFFFFFFF, 0}, {5, 1}] FidelityFX
yields keys [5, 0] while DeviceRadixSort yields [5, 0xFFFFFFFF]; the
repository's `compareArrays` reports one key difference and no match instead
of the claimed zero differences. -/
theorem C6_engines_disagree_on_sentinel_key :
    compareArrays (FidelityFXSort.sort [⟨0xFFFFFFFF, 0⟩, ⟨5, 1⟩])
        (DeviceRadixSort.sort [⟨0xFFFFFFFF, 0⟩, ⟨5, 1⟩]) = ⟨false, 1⟩
    ∧ DeviceRadixSort.sort [⟨0xFFFFFFFF, 0⟩, ⟨5, 1⟩] = [⟨5, 0⟩, ⟨0xFFFFFFFF, 1⟩]
    ∧ OneSweep.sort [⟨0xFFFFFFFF, 0⟩, ⟨5, 1⟩] = [⟨5, 1⟩, ⟨0xFFFFFFFF, 0⟩] := by
  decide

/-- Claim C7 fails on the code for N = 1: each engine does return the empty
sequence for empty input, but the single record {0xFFFFFFFF, 7} comes back
from FidelityFX as {0, 0}, not unchanged (the scatter guard suppresses the
only write and the zeroed pong buffer is downloaded). -/
theorem C7_single_sentinel_record_lost :
    (FidelityFXSort.sort [] = [] ∧ DeviceRadixSort.sort [] = [] ∧ OneSweep.sort [] = [])
    ∧ FidelityFXSort.sort [⟨0xFFFFFFFF, 7⟩] = [⟨0, 0⟩]
    ∧ FidelityFXSort.sort [⟨0xFFFFFFFF, 7⟩] ≠ [⟨0xFFFFFFFF, 7⟩] := by
  decide

/-- Claim C8 fails on the code: FidelityFX sorting [{3,0}, {0xFFFFFFFF,1}]
yields [{3,0}, {0,0}] (the sentinel-keyed record is dropped, its slot stays
zero, and no later pass moves the 0 before the 3 because they only differ in
the first 4-bit digit, handled by the very pass that dropped the record).
Re-sorting that output yields [{0,0}, {3,0}] ≠ the output: the sort is not
idempotent on its own output. -/
theorem C8_fidelityfx_resort_differs :
    FidelityFXSort.sort [⟨3, 0⟩, ⟨0xFFFFFFFF, 1⟩] = [⟨3, 0⟩, ⟨0, 0⟩]
    ∧ FidelityFXSort.sort (FidelityFXSort.sort [⟨3, 0⟩, ⟨0xFFFFFFFF, 1⟩]) = [⟨0, 0⟩, ⟨3, 0⟩]
    ∧ FidelityFXSort.sort (FidelityFXSort.sort [⟨3, 0⟩, ⟨0xFFFFFFFF, 1⟩])
        ≠ FidelityFXSort.sort [⟨3, 0⟩, ⟨0xFFFFFFFF, 1⟩] := by
  decide

end GpuSort

namespace GpuSort

section StableScatterTheory

variable {α : Type} (κ : α → Nat) (dflt : α) (shift mask : Nat)

/-- Digits never exceed the mask. -/
theorem keyDigit_le_mask (a : α) : keyDigit κ shift mask a ≤ mask :=
  Nat.and_le_right

/-- Splitting the below-`d + 1` digit count into below-`d` and equal-`d`. -/
theorem cntLt_succ (l : List α) (d : Nat) :
    cntLt κ shift mask l (d + 1) = cntLt κ shift mask l d + cntEq κ shift mask l d := by
  unfold cntLt cntEq
  induction l with
  | nil => simp
  | cons x tl ih =>
    simp only [List.countP_cons, ih]
    by_cases h1 : keyDigit κ shift mask x < d
    · have h2 : keyDigit κ shift mask x < d + 1 := by omega
      have h3 : ¬ keyDigit κ shift mask x = d := by omega
      simp [h1, h2, h3]
      omega
    · by_cases h2 : keyDigit κ shift mask x = d
      · have h3 : keyDigit κ shift mask x < d + 1 := by omega
        simp [h1, h2, h3]
        omega
      · have h3 : ¬ keyDigit κ shift mask x < d + 1 := by omega
        simp [h1, h2, h3]

/-- The per-digit bin counts of the first `D` digits sum to the below-`D`
count: the content of an exclusive digit-base table is the prefix sum of the
histogram. -/
theorem sum_cntEq_range (l : List α) (D : Nat) :
    ((List.range D).map (fun d => cntEq κ shift mask l d)).sum = cntLt κ shift mask l D := by
  induction D with
  | zero =>
    simp [cntLt, List.countP_eq_zero]
  | succ D ih =>
    rw [List.range_succ, List.map_append, List.sum_append, ih, cntLt_succ]
    simp

/-- Every record's digit is below `mask + 1`, so the below-`mask + 1` count
is the whole length. -/
theorem cntLt_mask_succ (l : List α) : cntLt κ shift mask l (mask + 1) = l.length := by
  unfold cntLt
  exact List.countP_eq_length.mpr fun a _ => by
    simpa using Nat.lt_succ_of_le (keyDigit_le_mask κ shift mask a)

/-- Below-`d` counts are monotone in `d`. -/
theorem cntLt_mono (l : List α) {d e : Nat} (h : d ≤ e) :
    cntLt κ shift mask l d ≤ cntLt κ shift mask l e := by
  unfold cntLt
  exact List.countP_mono_left fun a _ ha => by
    simp only [decide_eq_true_eq] at ha ⊢
    omega

/-- One more element of the prefix adds the element's own match bit. -/
theorem countP_take_succ (p : α → Bool) (l : List α) (i : Nat) (hi : i < l.length) :
    (l.take (i + 1)).countP p
      = (l.take i).countP p + (if p (l.getD i dflt) then 1 else 0) := by
  rw [List.take_succ, List.countP_append, List.getElem?_eq_getElem hi]
  simp [List.countP_cons, List.getD_eq_getElem?_getD, List.getElem?_eq_getElem hi]

/-- Prefix counts never exceed the whole count. -/
theorem countP_take_le (p : α → Bool) (l : List α) (i : Nat) :
    (l.take i).countP p ≤ l.countP p :=
  (List.take_sublist i l).countP_le p

/-- Prefix counts are monotone in the prefix length. -/
theorem countP_take_mono (p : α → Bool) (l : List α) {i j : Nat} (h : i ≤ j) :
    (l.take i).countP p ≤ (l.take j).countP p := by
  have : l.take i = (l.take j).take i := by
    rw [List.take_take, Nat.min_eq_left h]
  rw [this]
  exact (List.take_sublist i (l.take j)).countP_le p

end StableScatterTheory

end GpuSort

namespace GpuSort

section StableScatterTheory

variable {α : Type} (κ : α → Nat) (dflt : α) (shift mask : Nat)

/-- The stable rank of element `i` among its digit class is below the class
size. -/
theorem rank_lt_cntEq (l : List α) (i : Nat) (hi : i < l.length) :
    (l.take i).countP (fun a => keyDigit κ shift mask a == keyDigit κ shift mask (l.getD i dflt))
      < cntEq κ shift mask l (keyDigit κ shift mask (l.getD i dflt)) := by
  unfold cntEq
  set p : α → Bool :=
    fun a => keyDigit κ shift mask a == keyDigit κ shift mask (l.getD i dflt) with hp
  have hself : p (l.getD i dflt) = true := by rw [hp]; simp
  have hstep := countP_take_succ dflt p l i hi
  rw [hself] at hstep
  simp only [eq_self_iff_true, if_true] at hstep
  have hle : (l.take (i + 1)).countP p ≤ l.countP p := countP_take_le p l (i + 1)
  omega

/-- The scatter position of element `i` lies below the below-`digit + 1`
count. -/
theorem scatterPos_lt_cntLt_succ (l : List α) (i : Nat) (hi : i < l.length) :
    scatterPos κ dflt shift mask l i
      < cntLt κ shift mask l (keyDigit κ shift mask (l.getD i dflt) + 1) := by
  rw [cntLt_succ]
  unfold scatterPos
  have := rank_lt_cntEq κ dflt shift mask l i hi
  omega

/-- Scatter positions stay inside the buffer. -/
theorem scatterPos_lt_length (l : List α) (i : Nat) (hi : i < l.length) :
    scatterPos κ dflt shift mask l i < l.length := by
  have h1 := scatterPos_lt_cntLt_succ κ dflt shift mask l i hi
  have h2 : cntLt κ shift mask l (keyDigit κ shift mask (l.getD i dflt) + 1)
      ≤ cntLt κ shift mask l (mask + 1) :=
    cntLt_mono κ shift mask l
      (Nat.succ_le_succ (keyDigit_le_mask κ shift mask (l.getD i dflt)))
  rw [cntLt_mask_succ] at h2
  omega

/-- Earlier elements of one digit class land at strictly smaller
positions. -/
theorem scatterPos_lt_of_digit_eq (l : List α) {i j : Nat} (hij : i < j) (hj : j < l.length)
    (hdg : keyDigit κ shift mask (l.getD i dflt) = keyDigit κ shift mask (l.getD j dflt)) :
    scatterPos κ dflt shift mask l i < scatterPos κ dflt shift mask l j := by
  have hi : i < l.length := Nat.lt_trans hij hj
  unfold scatterPos
  rw [hdg]
  set p : α → Bool :=
    fun a => keyDigit κ shift mask a == keyDigit κ shift mask (l.getD j dflt) with hp
  have hself : p (l.getD i dflt) = true := by
    rw [hp]
    simp only [beq_iff_eq]
    exact hdg
  have hstep := countP_take_succ dflt p l i hi
  rw [hself] at hstep
  simp only [eq_self_iff_true, if_true] at hstep
  have hmono : (l.take (i + 1)).countP p ≤ (l.take j).countP p :=
    countP_take_mono p l hij
  omega

/-- An element of a smaller digit class lands at a strictly smaller position
than any element of a larger class. -/
theorem scatterPos_lt_of_digit_lt (l : List α) {i j : Nat} (hi : i < l.length)
    (hj : j < l.length)
    (hdg : keyDigit κ shift mask (l.getD i dflt) < keyDigit κ shift mask (l.getD j dflt)) :
    scatterPos κ dflt shift mask l i < scatterPos κ dflt shift mask l j := by
  have h1 := scatterPos_lt_cntLt_succ κ dflt shift mask l i hi
  have h2 : cntLt κ shift mask l (keyDigit κ shift mask (l.getD i dflt) + 1)
      ≤ cntLt κ shift mask l (keyDigit κ shift mask (l.getD j dflt)) :=
    cntLt_mono κ shift mask l hdg
  have h3 : cntLt κ shift mask l (keyDigit κ shift mask (l.getD j dflt))
      ≤ scatterPos κ dflt shift mask l j := Nat.le_add_right _ _
  omega

/-- Distinct elements never collide: the whole-pass scatter is injective. -/
theorem scatterPos_ne (l : List α) {i j : Nat} (hi : i < l.length) (hj : j < l.length)
    (hne : i ≠ j) : scatterPos κ dflt shift mask l i ≠ scatterPos κ dflt shift mask l j := by
  rcases Nat.lt_trichotomy (keyDigit κ shift mask (l.getD i dflt))
      (keyDigit κ shift mask (l.getD j dflt)) with hdg | hdg | hdg
  · exact Nat.ne_of_lt (scatterPos_lt_of_digit_lt κ dflt shift mask l hi hj hdg)
  · rcases Nat.lt_or_ge i j with hij | hij
    · exact Nat.ne_of_lt (scatterPos_lt_of_digit_eq κ dflt shift mask l hij hj hdg)
    · have hji : j < i := by omega
      exact (Nat.ne_of_lt
        (scatterPos_lt_of_digit_eq κ dflt shift mask l hji hi hdg.symm)).symm
  · exact (Nat.ne_of_lt (scatterPos_lt_of_digit_lt κ dflt shift mask l hj hi hdg)).symm

/-- Length invariance of the guarded write loop. -/
theorem foldl_write_length (w : Nat → α) (okf : Nat → Bool) (pos : Nat → Nat) :
    ∀ (n : Nat) (dst : List α),
      ((List.range n).foldl (fun out i => if okf i then out.set (pos i) (w i) else out)
        dst).length = dst.length := by
  intro n
  induction n with
  | zero => intro dst; rfl
  | succ n ih =>
    intro dst
    rw [List.range_succ, List.foldl_append]
    by_cases h : okf n <;> simp [h, ih dst]

/-- A slot no enabled write targets keeps the destination's old content. -/
theorem foldl_write_getElem_of_unwritten (w : Nat → α) (okf : Nat → Bool) (pos : Nat → Nat)
    (j : Nat) :
    ∀ (n : Nat) (dst : List α), (∀ i, i < n → okf i = true → pos i ≠ j) →
      ((List.range n).foldl (fun out i => if okf i then out.set (pos i) (w i) else out)
        dst)[j]? = dst[j]? := by
  intro n
  induction n with
  | zero => intro dst _; rfl
  | succ n ih =>
    intro dst hno
    rw [List.range_succ, List.foldl_append]
    by_cases h : okf n
    · simp only [List.foldl_cons, List.foldl_nil, h, if_true]
      rw [List.getElem?_set_ne (hno n (Nat.lt_succ_self n) h)]
      exact ih dst fun i hin => hno i (Nat.lt_succ_of_lt hin)
    · simp only [List.foldl_cons, List.foldl_nil, h, if_false]
      exact ih dst fun i hin => hno i (Nat.lt_succ_of_lt hin)

/-- The slot of the unique enabled write targeting it holds that write's
value. -/
theorem foldl_write_getElem_of_written (w : Nat → α) (okf : Nat → Bool) (pos : Nat → Nat)
    (j : Nat) :
    ∀ (n : Nat) (dst : List α) (i : Nat), i < n → okf i = true → pos i = j →
      (∀ i2, i2 < n → i2 ≠ i → okf i2 = true → pos i2 ≠ j) → j < dst.length →
      ((List.range n).foldl (fun out i => if okf i then out.set (pos i) (w i) else out)
        dst)[j]? = some (w i) := by
  intro n
  induction n with
  | zero => intro dst i hi; omega
  | succ n ih =>
    intro dst i hi hok hpos huniq hj
    rw [List.range_succ, List.foldl_append]
    simp only [List.foldl_cons, List.foldl_nil]
    rcases Nat.lt_or_ge i n with hin | hin
    · have hlast : okf n = true → pos n ≠ j := fun hokn =>
        huniq n (Nat.lt_succ_self n) (by omega) hokn
      by_cases h : okf n
      · rw [if_pos h, List.getElem?_set_ne (hlast h)]
        exact ih dst i hin hok hpos
          (fun i2 hi2 => huniq i2 (Nat.lt_succ_of_lt hi2)) hj
      · rw [if_neg h]
        exact ih dst i hin hok hpos
          (fun i2 hi2 => huniq i2 (Nat.lt_succ_of_lt hi2)) hj
    · have hieq : i = n := by omega
      subst hieq
      rw [if_pos hok, ← hpos]
      exact List.getElem?_set_self (by rw [foldl_write_length]; omega)

end StableScatterTheory

end GpuSort

namespace GpuSort

section StableScatterTheory

variable {α : Type} (κ : α → Nat) (dflt : α) (shift mask : Nat)

/-- The element whose prefix holds `m` matches is the `m`-th element of the
filtered list: filtering preserves the stable rank. -/
theorem filter_getElem_rank (p : α → Bool) :
    ∀ (l : List α) (i : Nat) (a : α), l[i]? = some a → p a = true →
      (l.filter p)[(l.take i).countP p]? = some a := by
  intro l
  induction l with
  | nil => intro i a h _; simp at h
  | cons x tl ih =>
    intro i a h hp
    cases i with
    | zero =>
      rw [List.getElem?_cons_zero] at h
      injection h with h
      subst h
      rw [List.take_zero, List.countP_nil, List.filter_cons_of_pos hp,
        List.getElem?_cons_zero]
    | succ i =>
      rw [List.getElem?_cons_succ] at h
      rw [List.take_succ_cons, List.countP_cons]
      by_cases hx : p x
      · rw [List.filter_cons_of_pos hx, if_pos hx, List.getElem?_cons_succ]
        exact ih i a h hp
      · rw [List.filter_cons_of_neg hx, if_neg hx, Nat.add_zero]
        exact ih i a h hp

/-- The digit grouping is length preserving. -/
theorem digitGroups_length (l : List α) :
    (digitGroups κ shift mask l).length = l.length := by
  rw [digitGroups, List.length_flatMap]
  have hmap : List.map (List.length ∘ fun d => l.filter (fun a => keyDigit κ shift mask a == d))
      (List.range (mask + 1))
      = List.map (fun d => cntEq κ shift mask l d) (List.range (mask + 1)) := by
    apply List.map_congr_left
    intro d _
    simp [cntEq, List.countP_eq_length_filter]
  rw [hmap, sum_cntEq_range, cntLt_mask_succ]

/-- The digit grouping places the element at index `i` of `l` exactly at its
scatter position. -/
theorem digitGroups_getElem_scatterPos (l : List α) (i : Nat) (hi : i < l.length) :
    (digitGroups κ shift mask l)[scatterPos κ dflt shift mask l i]?
      = some (l.getD i dflt) := by
  set d := keyDigit κ shift mask (l.getD i dflt) with hd
  have hdm : d ≤ mask := keyDigit_le_mask κ shift mask (l.getD i dflt)
  have hsplit : List.range (mask + 1)
      = List.range d ++ (List.range (mask + 1 - d)).map (fun x => d + x) := by
    conv_lhs => rw [show mask + 1 = d + (mask + 1 - d) by omega]
    exact List.range_add d (mask + 1 - d)
  rw [digitGroups, hsplit, List.flatMap_append]
  have hleft : ((List.range d).flatMap
      (fun d2 => l.filter (fun a => keyDigit κ shift mask a == d2))).length
      = cntLt κ shift mask l d := by
    rw [List.length_flatMap]
    have hmap : List.map
        (List.length ∘ fun d2 => l.filter (fun a => keyDigit κ shift mask a == d2))
        (List.range d)
        = List.map (fun d2 => cntEq κ shift mask l d2) (List.range d) := by
      apply List.map_congr_left
      intro e _
      simp [cntEq, List.countP_eq_length_filter]
    rw [hmap, sum_cntEq_range]
  have hpos_ge : ((List.range d).flatMap
      (fun d2 => l.filter (fun a => keyDigit κ shift mask a == d2))).length
      ≤ scatterPos κ dflt shift mask l i := by
    rw [hleft]
    unfold scatterPos
    rw [← hd]
    exact Nat.le_add_right _ _
  rw [List.getElem?_append_right hpos_ge, hleft]
  have hoffset : scatterPos κ dflt shift mask l i - cntLt κ shift mask l d
      = (l.take i).countP (fun a => keyDigit κ shift mask a == d) := by
    unfold scatterPos
    rw [← hd]
    exact Nat.add_sub_cancel_left _ _
  rw [hoffset]
  have hranges : (List.range (mask + 1 - d)).map (fun x => d + x)
      = d :: (List.range (mask - d)).map (fun x => d + (x + 1)) := by
    rw [show mask + 1 - d = (mask - d) + 1 by omega, List.range_succ_eq_map,
      List.map_cons, Nat.add_zero, List.map_map]
    rfl
  rw [hranges, List.flatMap_cons]
  have hrank : (l.take i).countP (fun a => keyDigit κ shift mask a == d)
      < (l.filter (fun a => keyDigit κ shift mask a == d)).length := by
    rw [← List.countP_eq_length_filter]
    have := rank_lt_cntEq κ dflt shift mask l i hi
    rw [← hd] at this
    exact this
  rw [List.getElem?_append_left hrank]
  exact filter_getElem_rank (fun a => keyDigit κ shift mask a == d) l i (l.getD i dflt)
    (by rw [List.getElem?_eq_getElem hi, List.getD_eq_getElem l dflt hi]) (by simp [hd])

/-- One guard-free scatter dispatch of a whole pass equals the stable digit
grouping of the source: the counting-scatter positions are a bijection and
realise exactly the grouped order. -/
theorem scatterFold_eq_digitGroups (src dst : List α) (hlen : dst.length = src.length) :
    scatterFold dflt (scatterPos κ dflt shift mask src) (fun _ => true) src dst
      = digitGroups κ shift mask src := by
  apply List.ext_getElem?
  intro j
  by_cases hj : j < src.length
  · have hinj : Function.Injective (fun i : Fin src.length =>
        (⟨scatterPos κ dflt shift mask src i, scatterPos_lt_length κ dflt shift mask src i
          i.isLt⟩ : Fin src.length)) := by
      intro a b hab
      by_contra hne
      have : (a : Nat) ≠ (b : Nat) := fun h => hne (Fin.ext h)
      exact scatterPos_ne κ dflt shift mask src a.isLt b.isLt this
        (congrArg Fin.val hab)
    have hsurj := Finite.injective_iff_surjective.mp hinj
    obtain ⟨i, hival⟩ := hsurj ⟨j, hj⟩
    have hipos : scatterPos κ dflt shift mask src i = j := congrArg Fin.val hival
    have huniq : ∀ i2, i2 < src.length → i2 ≠ (i : Nat) →
        scatterPos κ dflt shift mask src i2 ≠ j := by
      intro i2 hi2 hne
      rw [← hipos]
      exact scatterPos_ne κ dflt shift mask src hi2 i.isLt hne
    rw [scatterFold]
    rw [foldl_write_getElem_of_written (fun i => src.getD i dflt) (fun _ => true)
      (scatterPos κ dflt shift mask src) j src.length dst i i.isLt rfl hipos
      (fun i2 hi2 hne _ => huniq i2 hi2 hne) (by omega)]
    rw [← hipos]
    exact (digitGroups_getElem_scatterPos κ dflt shift mask src i i.isLt).symm
  · have h1 : (scatterFold dflt (scatterPos κ dflt shift mask src) (fun _ => true)
        src dst).length ≤ j := by
      rw [scatterFold, foldl_write_length]
      omega
    have h2 : (digitGroups κ shift mask src).length ≤ j := by
      rw [digitGroups_length]
      omega
    rw [List.getElem?_eq_none h1, List.getElem?_eq_none h2]

end StableScatterTheory

end GpuSort

namespace GpuSort

section StableScatterTheory

variable {α : Type} (κ : α → Nat) (dflt : α) (shift mask : Nat)

/-- Grouping a list whose digits lie below `D` into the digit classes
`0..D-1` is a permutation. -/
theorem flatMap_filter_digit_perm :
    ∀ (D : Nat) (l : List α), (∀ a ∈ l, keyDigit κ shift mask a < D) →
      ((List.range D).flatMap
        (fun d => l.filter (fun a => keyDigit κ shift mask a == d))).Perm l := by
  intro D
  induction D with
  | zero =>
    intro l h
    cases l with
    | nil => simp
    | cons x tl => exact absurd (h x (by simp)) (by omega)
  | succ D ih =>
    intro l h
    rw [List.range_succ, List.flatMap_append]
    have hsingle : ([D].flatMap (fun d => l.filter (fun a => keyDigit κ shift mask a == d)))
        = l.filter (fun a => keyDigit κ shift mask a == D) := by
      simp
    rw [hsingle]
    set l2 := l.filter (fun a => ! (keyDigit κ shift mask a == D)) with hl2
    have hblocks : (List.range D).flatMap
          (fun d => l.filter (fun a => keyDigit κ shift mask a == d))
        = (List.range D).flatMap
          (fun d => l2.filter (fun a => keyDigit κ shift mask a == d)) := by
      rw [List.flatMap_def, List.flatMap_def]
      congr 1
      apply List.map_congr_left
      intro d hd
      rw [List.mem_range] at hd
      rw [hl2, List.filter_filter]
      apply List.filter_congr
      intro a _
      by_cases hda : keyDigit κ shift mask a = d
      · rw [hda]
        simp [Nat.ne_of_lt hd]
      · simp [hda]
    have hl2mem : ∀ a ∈ l2, keyDigit κ shift mask a < D := by
      intro a ha
      rw [hl2, List.mem_filter] at ha
      have h1 := h a ha.1
      have h2 : ¬ (keyDigit κ shift mask a = D) := by simpa using ha.2
      omega
    rw [hblocks]
    refine ((ih l2 hl2mem).append_right _).trans ?_
    refine List.perm_append_comm.trans ?_
    rw [hl2]
    exact List.filter_append_perm _ l

/-- The digit grouping of one pass is a permutation of its input. -/
theorem digitGroups_perm (l : List α) : (digitGroups κ shift mask l).Perm l := by
  rw [digitGroups]
  exact flatMap_filter_digit_perm κ shift mask (mask + 1) l fun a _ =>
    Nat.lt_succ_of_le (keyDigit_le_mask κ shift mask a)

end StableScatterTheory

end GpuSort

namespace GpuSort

/-- A key's residue modulo `2^(s+w)` splits into the pass digit (width `w`
at shift `s`) above the residue modulo `2^s`: the LSD radix invariant. -/
theorem mod_pow_split (s w k : Nat) :
    k % 2 ^ (s + w) = 2 ^ s * digitOf s (2 ^ w - 1) k + k % 2 ^ s := by
  rw [digitOf, Nat.shiftRight_eq_div_pow, Nat.and_pow_two_sub_one_eq_mod, pow_add,
    Nat.mod_mul]
  omega

section StableScatterTheory

variable {α : Type} (κ : α → Nat)

/-- One stable counting pass at shift `s` over `w`-bit digits turns a list
sorted by `key mod 2^s` into one sorted by `key mod 2^(s+w)`: the grouped
digits are increasing across blocks, and within one block stability keeps
the lower bits ordered. -/
theorem digitGroups_pairwise_mod (s w : Nat) (mask : Nat) (hmask : mask = 2 ^ w - 1)
    (l : List α) (hsort : l.Pairwise (fun a b => κ a % 2 ^ s ≤ κ b % 2 ^ s)) :
    (digitGroups κ s mask l).Pairwise
      (fun a b => κ a % 2 ^ (s + w) ≤ κ b % 2 ^ (s + w)) := by
  have hsplit : ∀ a : α, κ a % 2 ^ (s + w)
      = 2 ^ s * keyDigit κ s mask a + κ a % 2 ^ s := fun a => by
    rw [keyDigit, hmask]
    exact mod_pow_split s w (κ a)
  rw [digitGroups, List.flatMap_def, List.pairwise_flatten]
  constructor
  · intro l2 hl2
    rw [List.mem_map] at hl2
    obtain ⟨d, _, hfd⟩ := hl2
    have hpairs : l2.Pairwise (fun a b => κ a % 2 ^ s ≤ κ b % 2 ^ s) := by
      rw [← hfd]
      exact hsort.sublist (List.filter_sublist l)
    apply hpairs.imp_of_mem
    intro a b ha hb hab
    rw [← hfd, List.mem_filter] at ha hb
    have hda : keyDigit κ s mask a = d := by simpa using ha.2
    have hdb : keyDigit κ s mask b = d := by simpa using hb.2
    rw [hsplit a, hsplit b, hda, hdb]
    omega
  · rw [List.pairwise_map]
    apply (List.pairwise_lt_range (mask + 1)).imp_of_mem
    intro d1 d2 hd1 _ hlt x hx y hy
    rw [List.mem_filter] at hx hy
    have hdx : keyDigit κ s mask x = d1 := by simpa using hx.2
    have hdy : keyDigit κ s mask y = d2 := by simpa using hy.2
    have hxlt : κ x % 2 ^ s < 2 ^ s := Nat.mod_lt _ (Nat.pos_pow_of_pos s (by omega))
    rw [hsplit x, hsplit y, hdx, hdy]
    have h1 : 2 ^ s * d1 + κ x % 2 ^ s < 2 ^ s * (d1 + 1) := by
      rw [Nat.mul_succ]
      omega
    have h2 : 2 ^ s * (d1 + 1) ≤ 2 ^ s * d2 := Nat.mul_le_mul_left _ (by omega)
    omega

end StableScatterTheory

end GpuSort

namespace GpuSort

/-- Summing a per-partition count over all partitions of a contiguous tiling
gives the whole-buffer count: the partitions are consecutive slices. -/
theorem countP_partSlice_sum {α : Type} (P : α → Bool) (ps : Nat) (hps : 0 < ps) :
    ∀ (tb : Nat) (l : List α), l.length ≤ tb * ps →
      ((List.range tb).map (fun p => (DeviceRadixSort.partSlice ps l p).countP P)).sum
        = l.countP P := by
  intro tb
  induction tb with
  | zero =>
    intro l h
    have hnil : l = [] := List.eq_nil_of_length_eq_zero (by omega)
    subst hnil
    simp
  | succ tb ih =>
    intro l h
    rw [List.range_succ_eq_map, List.map_cons, List.map_map, List.sum_cons]
    have h0 : DeviceRadixSort.partSlice ps l 0 = l.take ps := by
      simp [DeviceRadixSort.partSlice]
    have hcomp : ((fun p => (DeviceRadixSort.partSlice ps l p).countP P) ∘ Nat.succ)
        = fun p => (DeviceRadixSort.partSlice ps (l.drop ps) p).countP P := by
      funext p
      simp only [Function.comp_apply]
      congr 1
      unfold DeviceRadixSort.partSlice
      rw [List.drop_drop]
      congr 2
      rw [Nat.succ_mul, Nat.mul_comm p ps]
      exact Nat.add_comm _ _
    rw [h0, hcomp]
    have hlen : (l.drop ps).length ≤ tb * ps := by
      rw [List.length_drop]
      have : (tb + 1) * ps = tb * ps + ps := Nat.succ_mul tb ps
      omega
    rw [ih (l.drop ps) hlen]
    rw [← List.countP_append, List.take_append_drop]

/-- The input length never exceeds the dispatched partitions' total
coverage (`Math.ceil` rounding). -/
theorem length_le_numBlocks_mul (ps : Nat) (hps : 0 < ps) (n : Nat) :
    n ≤ DeviceRadixSort.numBlocks ps n * ps := by
  unfold DeviceRadixSort.numBlocks
  have h1 := Nat.div_add_mod (n + ps - 1) ps
  have h2 := Nat.mod_lt (n + ps - 1) hps
  have h3 : (n + ps - 1) / ps * ps = ps * ((n + ps - 1) / ps) := Nat.mul_comm _ _
  omega

/-- A full partition before partition `p` is unaffected by truncating the
buffer at the start of partition `p`. -/
theorem partSlice_take {α : Type} (ps : Nat) (l : List α) (p q : Nat) (hq : q < p) :
    DeviceRadixSort.partSlice ps (l.take (p * ps)) q = DeviceRadixSort.partSlice ps l q := by
  unfold DeviceRadixSort.partSlice
  rw [List.drop_take]
  rw [List.take_take]
  congr 1
  have hge : q * ps + ps ≤ p * ps := by
    have := Nat.mul_le_mul_right ps (show q + 1 ≤ p by omega)
    rw [Nat.succ_mul] at this
    exact this
  omega

/-- The tiled scatter position `dvr_pass` computes — global digit base from
`hist`, preceding partitions' digit count from the scanned `pass_hist`, and
the stable in-partition rank — equals the whole-buffer scatter position:
the partitions tile the buffer contiguously, so the per-partition counts sum
to the global below-digit count and the global prefix rank. -/
theorem dvrPos_eq_scatterPos (shift : Nat) (keys : List Nat) (i : Nat) :
    DeviceRadixSort.dvrPos shift keys i
      = scatterPos id 0 shift DeviceRadixSort.RADIX_MASK keys i := by
  have hps0 : 0 < DeviceRadixSort.PART_SIZE := by decide
  rw [DeviceRadixSort.dvrPos, scatterPos]
  simp only [keyDigit, id_eq]
  set ps := DeviceRadixSort.PART_SIZE with hpsdef
  set p := i / ps with hp
  set j := i % ps with hj
  have hps : 0 < ps := hps0
  have hij : ps * p + j = i := Nat.div_add_mod i ps
  have hjlt : j < ps := Nat.mod_lt i hps
  set d := digitOf shift DeviceRadixSort.RADIX_MASK (keys.getD i 0) with hd
  -- global digit base: sum of per-partition below-digit counts
  have hbase : DeviceRadixSort.histBase shift keys d
      = cntLt id shift DeviceRadixSort.RADIX_MASK keys d := by
    rw [DeviceRadixSort.histBase]
    unfold cntLt
    exact countP_partSlice_sum _ ps hps _ keys
      (length_le_numBlocks_mul ps hps keys.length)
  -- the scanned lookback prefix: counts of digit d in partitions before p
  have hscan : (if p = 0 then 0 else DeviceRadixSort.passHistScanned shift keys d (p - 1))
      = ((List.range p).map
          (fun q => DeviceRadixSort.partCount shift keys d q)).sum := by
    by_cases hp0 : p = 0
    · simp [hp0]
    · have hp1 : p - 1 + 1 = p := Nat.succ_pred_eq_of_pos (Nat.pos_of_ne_zero hp0)
      rw [if_neg hp0, DeviceRadixSort.passHistScanned, hp1]
  -- prefix of the whole buffer splits at the partition boundary
  have hij2 : p * ps + j = i := by
    rw [Nat.mul_comm p ps]
    exact hij
  have htake : keys.take i
      = keys.take (p * ps) ++ (DeviceRadixSort.partSlice ps keys p).take j := by
    have h1 : keys.take i = keys.take (p * ps + j) := by rw [hij2]
    rw [h1, List.take_add]
    congr 1
    rw [DeviceRadixSort.partSlice, List.take_take]
    congr 1
    omega
  have hfirst : (keys.take (p * ps)).countP
        (fun k => digitOf shift DeviceRadixSort.RADIX_MASK k == d)
      = ((List.range p).map (fun q => DeviceRadixSort.partCount shift keys d q)).sum := by
    have hsum := countP_partSlice_sum
      (fun k => digitOf shift DeviceRadixSort.RADIX_MASK k == d) ps hps p
      (keys.take (p * ps)) (by rw [List.length_take]; omega)
    rw [← hsum]
    congr 1
    apply List.map_congr_left
    intro q hq
    rw [List.mem_range] at hq
    rw [partSlice_take ps keys p q hq, DeviceRadixSort.partCount]
    rfl
  rw [hbase, hscan, htake, List.countP_append, hfirst]
  omega

end GpuSort

namespace GpuSort

section PipelineTheory

variable {α : Type} (κ : α → Nat) (dflt : α)

/-- A relation that always holds is pairwise on every list. -/
theorem pairwise_of_total {R : α → α → Prop} (h : ∀ a b, R a b) :
    ∀ l : List α, l.Pairwise R
  | [] => List.Pairwise.nil
  | a :: t => List.Pairwise.cons (fun b _ => h a b) (pairwise_of_total h t)

/-- `scatterFold` consults the position and the guard only at in-range
indices: functions that agree there give the same dispatch result. -/
theorem scatterFold_congr (pos1 pos2 : Nat → Nat) (ok1 ok2 : α → Bool)
    (src dst : List α)
    (hpos : ∀ i, i < src.length → pos1 i = pos2 i)
    (hok : ∀ i, i < src.length → ok1 (src.getD i dflt) = ok2 (src.getD i dflt)) :
    scatterFold dflt pos1 ok1 src dst = scatterFold dflt pos2 ok2 src dst := by
  rw [scatterFold, scatterFold]
  apply List.foldl_ext
  intro out i hi
  rw [List.mem_range] at hi
  rw [hok i hi, hpos i hi]

/-- Re-pairing downloaded buffers index by index: the key column of
`zipWith KV.mk` is the key buffer when the buffers have equal length. -/
theorem map_key_zipWith_mk : ∀ (ks vs : List Nat), ks.length = vs.length →
    (List.zipWith KV.mk ks vs).map KV.key = ks
  | [], [], _ => rfl
  | [], _ :: _, h => by simp at h
  | _ :: _, [], h => by simp at h
  | k :: ks, v :: vs, h => by
    simp only [List.zipWith_cons_cons, List.map_cons, List.cons.injEq]
    exact ⟨trivial, map_key_zipWith_mk ks vs (by simpa using h)⟩

/-- The payload column of `zipWith KV.mk` is the payload buffer when the
buffers have equal length. -/
theorem map_value_zipWith_mk : ∀ (ks vs : List Nat), ks.length = vs.length →
    (List.zipWith KV.mk ks vs).map KV.value = vs
  | [], [], _ => rfl
  | [], _ :: _, h => by simp at h
  | _ :: _, [], h => by simp at h
  | k :: ks, v :: vs, h => by
    simp only [List.zipWith_cons_cons, List.map_cons, List.cons.injEq]
    exact ⟨trivial, map_value_zipWith_mk ks vs (by simpa using h)⟩

/-- The ping-pong pipeline of stable counting passes at shifts `k·w`,
`(k+1)·w`, …, `(k+n-1)·w`: starting from a list already sorted by the low
`k·w` key bits it returns a permutation of its input, sorted by the low
`(k+n)·w` bits.  A per-element invariant `P` (such as the absence of
sentinel keys) that the pass function may require is carried through the
permutations. -/
theorem runPasses_perm_sorted (P : α → Prop) (w : Nat)
    (passFn : Nat → List α → List α → List α)
    (hpass : ∀ s (src dst : List α), dst.length = src.length → (∀ a ∈ src, P a) →
      passFn s src dst = digitGroups κ s (2 ^ w - 1) src) :
    ∀ (n k : Nat) (l dst : List α), dst.length = l.length → (∀ a ∈ l, P a) →
      l.Pairwise (fun a b => κ a % 2 ^ (k * w) ≤ κ b % 2 ^ (k * w)) →
      (runPasses passFn ((List.range n).map (fun p => (k + p) * w)) l dst).Perm l ∧
      (runPasses passFn ((List.range n).map (fun p => (k + p) * w)) l dst).Pairwise
        (fun a b => κ a % 2 ^ ((k + n) * w) ≤ κ b % 2 ^ ((k + n) * w)) := by
  intro n
  induction n with
  | zero =>
    intro k l dst hlen hP hsort
    simp only [List.range_zero, List.map_nil, runPasses]
    exact ⟨List.Perm.refl l, hsort⟩
  | succ n ih =>
    intro k l dst hlen hP hsort
    have hshifts : (List.range (n + 1)).map (fun p => (k + p) * w)
        = (k + 0) * w :: (List.range n).map (fun p => (k + 1 + p) * w) := by
      rw [List.range_succ_eq_map, List.map_cons, List.map_map]
      congr 1
      apply List.map_congr_left
      intro p _
      show (k + (p + 1)) * w = (k + 1 + p) * w
      congr 1
      omega
    rw [hshifts]
    simp only [runPasses]
    rw [hpass ((k + 0) * w) l dst hlen hP]
    set l2 := digitGroups κ ((k + 0) * w) (2 ^ w - 1) l with hl2
    have hperm2 : l2.Perm l := digitGroups_perm κ ((k + 0) * w) (2 ^ w - 1) l
    have hlen2 : l.length = l2.length := hperm2.length_eq.symm
    have hP2 : ∀ a ∈ l2, P a := fun a ha => hP a (hperm2.mem_iff.mp ha)
    have hsort2 : l2.Pairwise
        (fun a b => κ a % 2 ^ ((k + 1) * w) ≤ κ b % 2 ^ ((k + 1) * w)) := by
      have he : (k + 0) * w + w = (k + 1) * w := by ring
      have h := digitGroups_pairwise_mod κ ((k + 0) * w) w (2 ^ w - 1) rfl l hsort
      rw [he] at h
      exact h
    obtain ⟨hpermRest, hsortRest⟩ := ih (k + 1) l2 l hlen2 hP2 hsort2
    refine ⟨hpermRest.trans hperm2, ?_⟩
    have he2 : k + 1 + n = k + (n + 1) := by omega
    rw [he2] at hsortRest
    exact hsortRest

end PipelineTheory

/-- One `dvr_pass` dispatch — the guard-free scatter of every key at its
tiled lookback position — is exactly the stable 8-bit digit grouping of the
source key buffer. -/
theorem dvrPassKernel_eq_digitGroups (shift : Nat) (srcKeys dstKeys : List Nat)
    (hlen : dstKeys.length = srcKeys.length) :
    DeviceRadixSort.dvrPassKernel shift srcKeys dstKeys
      = digitGroups id shift DeviceRadixSort.RADIX_MASK srcKeys := by
  rw [DeviceRadixSort.dvrPassKernel]
  have hpos : DeviceRadixSort.dvrPos shift srcKeys
      = scatterPos id 0 shift DeviceRadixSort.RADIX_MASK srcKeys :=
    funext (fun i => dvrPos_eq_scatterPos shift srcKeys i)
  rw [hpos]
  exact scatterFold_eq_digitGroups id 0 shift DeviceRadixSort.RADIX_MASK srcKeys dstKeys hlen

/-- The modelled `onesweep_pass` dispatch is the stable 8-bit digit grouping
of its source records. -/
theorem onesweepPass_eq_digitGroups (shift : Nat) (src dst : List KV)
    (hlen : dst.length = src.length) :
    OneSweep.onesweepPass shift src dst
      = digitGroups KV.key shift (OneSweep.RADIX - 1) src := by
  rw [OneSweep.onesweepPass]
  exact scatterFold_eq_digitGroups KV.key ⟨0, 0⟩ shift (OneSweep.RADIX - 1) src dst hlen

/-- When no source record carries the sentinel key, the FidelityFX scatter
guard is everywhere true and one `encodeSortPass` is the stable 4-bit digit
grouping of its source records. -/
theorem ffxScatter_eq_digitGroups (shift : Nat) (src dst : List KV)
    (hlen : dst.length = src.length)
    (hs : ∀ r ∈ src, r.key < FidelityFXSort.SENTINEL) :
    FidelityFXSort.ffxScatter shift src dst
      = digitGroups KV.key shift (FidelityFXSort.SORT_BIN_COUNT - 1) src := by
  rw [FidelityFXSort.ffxScatter]
  rw [scatterFold_congr (⟨0, 0⟩ : KV) _ _ _ (fun _ => true) src dst
    (fun _ _ => rfl) ?hok]
  · exact scatterFold_eq_digitGroups KV.key ⟨0, 0⟩ shift
      (FidelityFXSort.SORT_BIN_COUNT - 1) src dst hlen
  case hok =>
    intro i hi
    have hmem : src.getD i ⟨0, 0⟩ ∈ src := by
      rw [List.getD_eq_getElem src ⟨0, 0⟩ hi]
      exact List.getElem_mem hi
    simp only [bne_iff_ne, ne_eq]
    exact fun hcon => absurd (hs _ hmem) (by rw [hcon]; omega)

end GpuSort

namespace GpuSort

/-- DeviceRadixSort's key pipeline is a correct radix sort of the uploaded
key buffer: after the 4 passes of 8-bit digits the downloaded key buffer is
a permutation of the uploaded one and is non-decreasing — while the payload
column of the re-paired output is the upload-order payload buffer unchanged,
because no kernel ever writes a payload buffer (the C2 mis-pairing). -/
theorem deviceRadixSort_output (data : List KV)
    (hkeys : ∀ r ∈ data, r.key < 2 ^ 32) :
    ((DeviceRadixSort.sort data).map KV.key).Perm (data.map KV.key)
    ∧ ((DeviceRadixSort.sort data).map KV.key).Pairwise (fun a b => a ≤ b)
    ∧ (DeviceRadixSort.sort data).map KV.value = data.map KV.value := by
  have hmask : DeviceRadixSort.RADIX_MASK = 2 ^ 8 - 1 := by decide
  have hpass : ∀ s (src dst : List Nat), dst.length = src.length →
      (∀ a ∈ src, True) →
      DeviceRadixSort.dvrPassKernel s src dst = digitGroups id s (2 ^ 8 - 1) src := by
    intro s src dst hlen _
    rw [← hmask]
    exact dvrPassKernel_eq_digitGroups s src dst hlen
  have hshifts : (List.range DeviceRadixSort.SORT_PASSES).map
        (fun p => p * DeviceRadixSort.RADIX_LOG)
      = (List.range 4).map (fun p => (0 + p) * 8) := by decide
  have hsort_eq : DeviceRadixSort.sort data
      = List.zipWith KV.mk
          (runPasses DeviceRadixSort.dvrPassKernel
            ((List.range DeviceRadixSort.SORT_PASSES).map
              (fun p => p * DeviceRadixSort.RADIX_LOG))
            (data.map KV.key) (List.replicate (data.map KV.key).length 0))
          (data.map KV.value) := rfl
  have hmain := runPasses_perm_sorted id (fun _ => True) 8
    DeviceRadixSort.dvrPassKernel hpass 4 0 (data.map KV.key)
    (List.replicate (data.map KV.key).length 0) (by simp) (fun a _ => trivial)
    (pairwise_of_total (fun a b => by simp [Nat.mod_one]) (data.map KV.key))
  rw [← hshifts] at hmain
  obtain ⟨hperm, hsorted⟩ := hmain
  set fk := runPasses DeviceRadixSort.dvrPassKernel
    ((List.range DeviceRadixSort.SORT_PASSES).map
      (fun p => p * DeviceRadixSort.RADIX_LOG))
    (data.map KV.key) (List.replicate (data.map KV.key).length 0) with hfk
  have hlenfk : fk.length = (data.map KV.value).length := by
    rw [hperm.length_eq]
    simp
  rw [hsort_eq, map_key_zipWith_mk fk (data.map KV.value) hlenfk,
    map_value_zipWith_mk fk (data.map KV.value) hlenfk]
  refine ⟨hperm, ?_, rfl⟩
  apply hsorted.imp_of_mem
  intro a b ha hb hab
  have hamem : a ∈ data.map KV.key := hperm.mem_iff.mp ha
  have hbmem : b ∈ data.map KV.key := hperm.mem_iff.mp hb
  rw [List.mem_map] at hamem hbmem
  obtain ⟨ra, hra, hrak⟩ := hamem
  obtain ⟨rb, hrb, hrbk⟩ := hbmem
  have hal : a < 2 ^ 32 := hrak ▸ hkeys ra hra
  have hbl : b < 2 ^ 32 := hrbk ▸ hkeys rb hrb
  simp only [id_eq] at hab
  rwa [Nat.mod_eq_of_lt hal, Nat.mod_eq_of_lt hbl] at hab

/-- OneSweep (with its kernels modelled from the spec) is a correct radix
sort: for inputs of 32-bit keys the output is a permutation of the input
records — key and payload moving together — with non-decreasing keys. -/
theorem oneSweep_output (data : List KV)
    (hkeys : ∀ r ∈ data, r.key < 2 ^ 32) :
    (OneSweep.sort data).Perm data
    ∧ ((OneSweep.sort data).map KV.key).Pairwise (fun a b => a ≤ b) := by
  have hmask : OneSweep.RADIX - 1 = 2 ^ 8 - 1 := by decide
  have hpass : ∀ s (src dst : List KV), dst.length = src.length →
      (∀ a ∈ src, True) →
      OneSweep.onesweepPass s src dst = digitGroups KV.key s (2 ^ 8 - 1) src := by
    intro s src dst hlen _
    rw [← hmask]
    exact onesweepPass_eq_digitGroups s src dst hlen
  have hshifts : (List.range OneSweep.SORT_PASSES).map
        (fun p => p * OneSweep.RADIX_LOG)
      = (List.range 4).map (fun p => (0 + p) * 8) := by decide
  have hsort_eq : OneSweep.sort data
      = runPasses OneSweep.onesweepPass
          ((List.range OneSweep.SORT_PASSES).map (fun p => p * OneSweep.RADIX_LOG))
          data (List.replicate data.length ⟨0, 0⟩) := rfl
  have hmain := runPasses_perm_sorted KV.key (fun _ => True) 8
    OneSweep.onesweepPass hpass 4 0 data (List.replicate data.length ⟨0, 0⟩)
    (by simp) (fun a _ => trivial)
    (pairwise_of_total (fun a b => by simp [Nat.mod_one]) data)
  rw [← hshifts] at hmain
  obtain ⟨hperm, hsorted⟩ := hmain
  rw [hsort_eq]
  refine ⟨hperm, ?_⟩
  rw [List.pairwise_map]
  apply hsorted.imp_of_mem
  intro a b ha hb hab
  have hal : a.key < 2 ^ 32 := hkeys a (hperm.mem_iff.mp ha)
  have hbl : b.key < 2 ^ 32 := hkeys b (hperm.mem_iff.mp hb)
  rwa [Nat.mod_eq_of_lt hal, Nat.mod_eq_of_lt hbl] at hab

/-- FidelityFX is a correct radix sort on sentinel-free inputs: when every
key is strictly below the padding sentinel 0xFFFFFFFF, all 8 passes of 4-bit
digits have an everywhere-true scatter guard, and the output is a
permutation of the input records with non-decreasing keys.  (C1/C7/C8 show
the guarantee genuinely fails once a key equals the sentinel.) -/
theorem fidelityFX_output (data : List KV)
    (hkeys : ∀ r ∈ data, r.key < FidelityFXSort.SENTINEL) :
    (FidelityFXSort.sort data).Perm data
    ∧ ((FidelityFXSort.sort data).map KV.key).Pairwise (fun a b => a ≤ b) := by
  have hmask : FidelityFXSort.SORT_BIN_COUNT - 1 = 2 ^ 4 - 1 := by decide
  have hpass : ∀ s (src dst : List KV), dst.length = src.length →
      (∀ a ∈ src, a.key < FidelityFXSort.SENTINEL) →
      FidelityFXSort.ffxScatter s src dst = digitGroups KV.key s (2 ^ 4 - 1) src := by
    intro s src dst hlen hs
    rw [← hmask]
    exact ffxScatter_eq_digitGroups s src dst hlen hs
  have hshifts : (List.range FidelityFXSort.TOTAL_PASSES).map
        (fun p => p * FidelityFXSort.SORT_BITS_PER_PASS)
      = (List.range 8).map (fun p => (0 + p) * 4) := by decide
  have hsort_eq : FidelityFXSort.sort data
      = runPasses FidelityFXSort.ffxScatter
          ((List.range FidelityFXSort.TOTAL_PASSES).map
            (fun p => p * FidelityFXSort.SORT_BITS_PER_PASS))
          data (List.replicate data.length ⟨0, 0⟩) := rfl
  have hmain := runPasses_perm_sorted KV.key
    (fun r => r.key < FidelityFXSort.SENTINEL) 4
    FidelityFXSort.ffxScatter hpass 8 0 data (List.replicate data.length ⟨0, 0⟩)
    (by simp) hkeys
    (pairwise_of_total (fun a b => by simp [Nat.mod_one]) data)
  rw [← hshifts] at hmain
  obtain ⟨hperm, hsorted⟩ := hmain
  rw [hsort_eq]
  refine ⟨hperm, ?_⟩
  rw [List.pairwise_map]
  apply hsorted.imp_of_mem
  intro a b ha hb hab
  have hal : a.key < 2 ^ 32 := by
    have := hkeys a (hperm.mem_iff.mp ha)
    rw [FidelityFXSort.SENTINEL] at this
    omega
  have hbl : b.key < 2 ^ 32 := by
    have := hkeys b (hperm.mem_iff.mp hb)
    rw [FidelityFXSort.SENTINEL] at this
    omega
  rwa [Nat.mod_eq_of_lt hal, Nat.mod_eq_of_lt hbl] at hab

end GpuSort
